import Mathlib

/-!
# Ordered task store of the todo application

A shallow embedding of the request handlers of
`backend/controllers/taskController.js`, of the route handlers of
`backend/routes/tasks.js`, of the reminder cycle of
`backend/services/emailService.js` and of the submit and drop handlers of
`frontend/src/components/dashboard/Dashboard.js` over an explicit model of
the `Task` collection, followed by theorems about the position bookkeeping
(`createTask`, `deleteTask`, `reorderTasks`), about `updateTask`, about the
poll cycle `checkAndScheduleReminders`, about the analytics, and about the
agreement of the two server implementations.

Modelling conventions

* The collection is a list of documents in natural (insertion) order.
  MongoDB keeps `_id` unique; that is the predicate `UniqueIds`.
* Object ids (documents and users) are natural numbers; a request may also
  carry an id that does not cast to an `ObjectId` (`RawId`).
* `position` has schema type `Number`; the embedding covers the
  integer-valued numbers, so positions and `newPosition` are `Int`.
  Fractional and non-numeric request values are outside the embedding.
* Dates are integer milliseconds since the epoch.
* `createdAt`, `description` and `tags` are not read by any handler modelled
  here and are left out of `Task`.
* `updatedAt` is the stamp that the schema option `timestamps: true` keeps.
  Only the poll cycle has a clock in this embedding, so only its write
  (`markSent`) sets the stamp; the stamps that `save()` and `updateMany` set in
  the request handlers are left out, and no statement about a request handler
  speaks of `updatedAt`.
* Every database call is taken to succeed (no lost connection), and each
  handler runs alone: the interleaving of concurrent requests is not modelled.
* The outcome of the mail transport is an input of a poll cycle (`mail`), and
  so are the readings of the clock (`now`, one per loop iteration).
-/

namespace TodoApp

/-! ## Data model (`backend/models/Task.js`) -/

/-- The embedded `reminder` sub-document with the schema defaults. -/
structure Reminder where
  enabled : Bool := false
  time : Option Int := none
  sent : Bool := false
deriving DecidableEq, Repr

/-- A stored task document. -/
structure Task where
  _id : Nat
  user : Nat
  position : Int := 0
  title : String := "t"
  status : String := "pending"
  priority : String := "medium"
  category : Option String := none
  dueDate : Option Int := none
  reminder : Reminder := {}
  frequency : String := "none"
  updatedAt : Int := 0
deriving DecidableEq, Repr

/-- The `Task` collection. -/
abbrev Store := List Task

/-- The `reminder` object of a request body; every field may be absent. -/
structure ReminderBody where
  enabled : Option Bool := none
  time : Option Int := none
  sent : Option Bool := none
deriving DecidableEq, Repr

/-- A request body for `POST /tasks`: each field may be absent.  The fields
`user` and `position` may be sent by a client as well.  A body may also carry
`dueDate: null` (the task dialog sends it for an empty due date): that is
`dueDateNull`, read only when `dueDate` is `none`. -/
structure TaskBody where
  title : Option String := none
  status : Option String := none
  priority : Option String := none
  category : Option String := none
  dueDate : Option Int := none
  reminder : Option ReminderBody := none
  frequency : Option String := none
  user : Option Nat := none
  position : Option Int := none
  dueDateNull : Bool := false
deriving DecidableEq, Repr

/-- What a handler passes to `res.json`. -/
inductive Payload where
  | message (text : String)
  | task (t : Task)
  | tasks (ts : List Task)
deriving DecidableEq, Repr

/-- An HTTP answer: status code and JSON payload. -/
structure Response where
  status : Nat
  body : Payload
deriving DecidableEq, Repr

/-! ## Collection primitives -/

/-- The call `Task.countDocuments({ user })`. -/
def countDocuments (s : Store) (uid : Nat) : Nat :=
  (s.filter (fun t => t.user == uid)).length

/-- The call `Task.findOne({ _id, user })`: the first document with that id and
owner. -/
def findOne (s : Store) (id uid : Nat) : Option Task :=
  s.find? (fun t => t._id == id && t.user == uid)

/-- The call `Task.findOneAndDelete({ _id, user })`: the removed document, if any, and
the collection without it. -/
def findOneAndDelete (s : Store) (id uid : Nat) : Option Task × Store :=
  match findOne s id uid with
  | none => (none, s)
  | some t => (some t, s.eraseP (fun x => x._id == id && x.user == uid))

/-- The call `Task.updateMany(filter, { $inc: { position: delta } })`. -/
def updateMany (s : Store) (filter : Task → Bool) (delta : Int) : Store :=
  s.map (fun t => if filter t then { t with position := t.position + delta } else t)

/-- The statements `task.position = p; task.save()` on a loaded document: the write goes to
the document with the same `_id` and sets the modified path only. -/
def savePosition (s : Store) (id : Nat) (p : Int) : Store :=
  s.map (fun t => if t._id == id then { t with position := p } else t)

/-- The query `Task.find({ user }).sort({ position: 1 })`. -/
def findSorted (s : Store) (uid : Nat) : List Task :=
  (s.filter (fun t => t.user == uid)).insertionSort (fun a b => a.position ≤ b.position)

/-! ## Schema validation on insert -/

/-- Enum of `status`. -/
def statusEnum : List String := ["pending", "in-progress", "completed"]

/-- Enum of `priority`. -/
def priorityEnum : List String := ["low", "medium", "high"]

/-- Enum of `recurring.frequency`. -/
def frequencyEnum : List String := ["daily", "weekly", "monthly", "none"]

/-- Schema validation run by `save()` on a new document: `title` is required
(and a required string may not be empty); the enum paths must hold one of
their listed values. -/
def validTask (t : Task) : Bool :=
  t.title != "" && statusEnum.contains t.status && priorityEnum.contains t.priority
    && frequencyEnum.contains t.frequency

/-- The `reminder` sub-document built from a body, with schema defaults. -/
def reminderOfBody (r : Option ReminderBody) : Reminder :=
  match r with
  | none => {}
  | some b => { enabled := b.enabled.getD false, time := b.time, sent := b.sent.getD false }

/-- The document `new Task({ ...req.body, user: req.user.id, position: count })`: the spread
body comes first, so `user` and `position` of the body are overwritten. -/
def newTask (newId uid : Nat) (count : Nat) (b : TaskBody) : Task :=
  { _id := newId
    user := uid
    position := (count : Int)
    title := b.title.getD ""
    status := b.status.getD "pending"
    priority := b.priority.getD "medium"
    category := b.category
    dueDate := b.dueDate
    reminder := reminderOfBody b.reminder
    frequency := b.frequency.getD "none" }

/-- The binding `scheduleReminder` that the controller destructures from
`require('../services/emailService')`.  That module exports only
`initializeReminders` and `sendReminderEmail`, so the binding is `undefined`. -/
def scheduleReminder : Option (Task → Unit) := none

/-! ## Request handlers (`backend/controllers/taskController.js`) -/

/-- The test `!req.body.reminder?.time` of `createTask`: true for an absent (or
`null`) time and for the time 0, which is falsy as well. -/
def falsyTime : Option Int → Bool
  | none => true
  | some time => time == 0

/-- The first block of `createTask`: when the reminder is enabled and its time
is falsy, the time is set to one hour before the due date.  With no due date
`new Date(undefined)` is an invalid date, which the schema refuses on save:
that case is `none`.  For `dueDate: null`, `new Date(null)` is the epoch, time 0. -/
def defaultReminderTime (b : TaskBody) : Option TaskBody :=
  match b.reminder with
  | none => some b
  | some r =>
    if r.enabled.getD false && falsyTime r.time then
      match b.dueDate with
      | none =>
        if b.dueDateNull then
          some { b with reminder := some { r with time := some (0 - 60 * 60 * 1000) } }
        else none
      | some d => some { b with reminder := some { r with time := some (d - 60 * 60 * 1000) } }
    else some b

/-- Handler `createTask`.  `newId` is the `_id` of the new document (generated by
the driver, or supplied in the body); an insert with an `_id` already in the
collection is refused by the unique index. -/
def createTask (s : Store) (uid newId : Nat) (body : TaskBody) : Store × Response :=
  match defaultReminderTime body with
  | none => (s, ⟨400, .message "Task validation failed"⟩)
  | some b =>
    let count := countDocuments s uid
    let task := newTask newId uid count b
    if !validTask task then (s, ⟨400, .message "Task validation failed"⟩)
    else if s.any (fun t => t._id == newId) then (s, ⟨400, .message "E11000 duplicate key"⟩)
    else
      let s1 := s ++ [task]
      if task.reminder.enabled then
        match scheduleReminder with
        | none => (s1, ⟨400, .message "scheduleReminder is not a function"⟩)
        | some _ => (s1, ⟨201, .task task⟩)
      else (s1, ⟨201, .task task⟩)

/-- Handler `deleteTask`. -/
def deleteTask (s : Store) (uid id : Nat) : Store × Response :=
  match findOneAndDelete s id uid with
  | (none, _) => (s, ⟨404, .message "Task not found"⟩)
  | (some task, s1) =>
    let s2 := updateMany s1 (fun t => t.user == uid && decide (t.position > task.position)) (-1)
    (s2, ⟨200, .message "Task deleted"⟩)

/-- Handler `reorderTasks` with body `{ taskId, newPosition }`. -/
def reorderTasks (s : Store) (uid taskId : Nat) (newPosition : Int) : Store × Response :=
  match findOne s taskId uid with
  | none => (s, ⟨404, .message "Task not found"⟩)
  | some task =>
    let oldPosition := task.position
    let s1 :=
      if newPosition > oldPosition then
        updateMany s (fun t => t.user == uid &&
          (decide (t.position > oldPosition) && decide (t.position ≤ newPosition))) (-1)
      else
        updateMany s (fun t => t.user == uid &&
          (decide (t.position ≥ newPosition) && decide (t.position < oldPosition))) 1
    let s2 := savePosition s1 task._id newPosition
    (s2, ⟨200, .tasks (findSorted s2 uid)⟩)

/-! ## Request sequences -/

/-- One request to the ordering endpoints. -/
inductive Request where
  | create (uid newId : Nat) (body : TaskBody)
  | delete (uid id : Nat)
  | reorder (uid taskId : Nat) (newPosition : Int)
deriving DecidableEq, Repr

/-- The collection after one request. -/
def step (s : Store) : Request → Store
  | .create uid newId body => (createTask s uid newId body).1
  | .delete uid id => (deleteTask s uid id).1
  | .reorder uid taskId newPosition => (reorderTasks s uid taskId newPosition).1

/-- The collection after a sequence of requests, served one after the other. -/
def run (s : Store) (rs : List Request) : Store :=
  rs.foldl step s

/-! ## Observations on a collection -/

/-- No two documents share an `_id`. -/
def UniqueIds (s : Store) : Prop :=
  (s.map (fun t => t._id)).Nodup

instance (s : Store) : Decidable (UniqueIds s) := by
  unfold UniqueIds; infer_instance

/-- The position values of one owner, in collection order. -/
def positionsOf (s : Store) (uid : Nat) : List Int :=
  (s.filter (fun t => t.user == uid)).map (fun t => t.position)

/-- The list `[0, 1, ..., n-1]` as positions. -/
def firstPositions (n : Nat) : List Int :=
  (List.range n).map (fun (i : Nat) => (i : Int))

/-- Density of one owner: the sorted positions are exactly `[0, ..., n-1]`. -/
def Dense (s : Store) (uid : Nat) : Prop :=
  (positionsOf s uid).insertionSort (fun a b => a ≤ b) = firstPositions (countDocuments s uid)

instance (s : Store) (uid : Nat) : Decidable (Dense s uid) := by
  unfold Dense; infer_instance

/-- The stored position of the document with the given `_id`. -/
def positionOf (s : Store) (id : Nat) : Option Int :=
  (s.find? (fun t => t._id == id)).map (fun t => t.position)

/-- The ordering view of a collection: `_id`, owner and position of each
document. -/
def ordering (s : Store) : List (Nat × Nat × Int) :=
  s.map (fun t => (t._id, t.user, t.position))

/-- A six-task list of owner 1 (ids 10..15 at positions 0..5) with one task of
owner 2 in between. -/
def sample : Store :=
  [ { _id := 10, user := 1, position := 0 },
    { _id := 11, user := 1, position := 1 },
    { _id := 20, user := 2, position := 0 },
    { _id := 12, user := 1, position := 2 },
    { _id := 13, user := 1, position := 3 },
    { _id := 14, user := 1, position := 4 },
    { _id := 15, user := 1, position := 5 } ]

/-- What `reorderTasks` does to one document when the found task moves from
`p` to `q`: the range shift of the owner, then the save of the moved document
(`reorderTasks_eq_map` proves that the handler is the map of this function). -/
def moved (uid taskId : Nat) (p q : Int) (t : Task) : Task :=
  if t._id = taskId then { t with position := q }
  else if t.user = uid ∧ p < t.position ∧ t.position ≤ q then { t with position := t.position - 1 }
  else if t.user = uid ∧ q ≤ t.position ∧ t.position < p then { t with position := t.position + 1 }
  else t

/-- The invariant of the collection: unique ids, and every owner dense. -/
def Inv (s : Store) : Prop :=
  UniqueIds s ∧ ∀ uid, Dense s uid

/-- A reorder request is in range when its task is not found, or its
`newPosition` lies in `[0, n)` for the `n` documents of the caller. -/
def inRange (s : Store) : Request → Bool
  | .reorder uid taskId newPosition =>
    (findOne s taskId uid).isNone ||
      (decide (0 ≤ newPosition) && decide (newPosition < countDocuments s uid))
  | _ => true

/-- Every reorder request of the sequence is in range at the moment it is
served. -/
def allInRange (s : Store) : List Request → Bool
  | [] => true
  | r :: rs => inRange s r && allInRange (step s r) rs

/-- A request sequence of two owners: three creations, a move to the front, a
deletion, a creation of the other owner, and a request for a missing task. -/
def sampleRequests : List Request :=
  [ .create 1 10 { title := some "a" },
    .create 1 11 { title := some "b" },
    .create 2 20 { title := some "c", position := some 7 },
    .create 1 12 { title := some "d" },
    .reorder 1 12 0,
    .delete 1 10,
    .reorder 2 99 5,
    .create 1 13 { title := some "e", user := some 2 } ]

/-! ## Update handler (`updateTask` of the controller) -/

/-- The loop `Object.keys(req.body).forEach(key => task[key] = req.body[key])`:
every key of the body is assigned to the document, `user` and `position`
included.  An assigned `reminder` object replaces the whole sub-document. -/
def assignBody (t : Task) (b : TaskBody) : Task :=
  { t with
    title := b.title.getD t.title
    status := b.status.getD t.status
    priority := b.priority.getD t.priority
    category := match b.category with
      | some c => some c
      | none => t.category
    dueDate := match b.dueDate with
      | some d => some d
      | none => if b.dueDateNull then none else t.dueDate
    reminder := match b.reminder with
      | some r => reminderOfBody (some r)
      | none => t.reminder
    frequency := b.frequency.getD t.frequency
    user := b.user.getD t.user
    position := b.position.getD t.position }

/-- The changes that `updateTask` makes to the loaded document before `save()`:
the assignment of the body, then `task.reminder.sent = false` when the body
has a `reminder`. -/
def applyUpdate (t : Task) (b : TaskBody) : Task :=
  let t1 := assignBody t b
  if b.reminder.isSome then { t1 with reminder := { t1.reminder with sent := false } } else t1

/-- Handler `updateTask`.  The save writes the modified paths to the document
with the `_id` of the loaded task; validation failure leaves the collection
as it was. -/
def updateTask (s : Store) (uid id : Nat) (body : TaskBody) : Store × Response :=
  match findOne s id uid with
  | none => (s, ⟨404, .message "Task not found"⟩)
  | some task =>
    let updatedTask := applyUpdate task body
    if !validTask updatedTask then (s, ⟨400, .message "Task validation failed"⟩)
    else
      let s1 := s.map (fun t => if t._id == task._id then applyUpdate t body else t)
      if updatedTask.reminder.enabled then
        match scheduleReminder with
        | none => (s1, ⟨400, .message "scheduleReminder is not a function"⟩)
        | some _ => (s1, ⟨200, .task updatedTask⟩)
      else (s1, ⟨200, .task updatedTask⟩)

/-! ## Reminder service (`backend/services/emailService.js`) -/

/-- A user document: what the reminder mail reads of it. -/
structure User where
  _id : Nat
  email : String := "u@example.org"
deriving DecidableEq, Repr

/-- The effect of `.populate('user')` on one task: the user document, or `null`
when no user has that id. -/
def populate (users : List User) (t : Task) : Option User :=
  users.find? (fun u => u._id == t.user)

/-- The call `Task.findByIdAndUpdate(id, { 'reminder.sent': true })`.  The
schema has `timestamps: true`, so the update sets `updatedAt` to the time of
the write (`stamp`) as well. -/
def markSent (s : Store) (id : Nat) (stamp : Int) : Store :=
  s.map (fun t => if t._id == id
    then { t with reminder := { t.reminder with sent := true }, updatedAt := stamp } else t)

/-- The `try` block of `sendReminderEmail`.  Reading `user.email` of a `null`
user throws; `mail task` tells whether `transporter.sendMail` resolves for the
mail of this task (otherwise it throws); after a sent mail the task is marked
in the collection, at the time `stamp`. -/
def sendReminderEmailTry (s : Store) (task : Task) (user : Option User)
    (mail : Task → Bool) (stamp : Int) : Except String Store :=
  match user with
  | none => .error "TypeError: cannot read email of null"
  | some _ =>
    if mail task then .ok (markSent s task._id stamp)
    else .error "sendMail failed"

/-- The function `sendReminderEmail`: `true` after the `try` block ran through,
`false` from the `catch` block. -/
def sendReminderEmail (s : Store) (task : Task) (user : Option User)
    (mail : Task → Bool) (stamp : Int) : Store × Bool :=
  match sendReminderEmailTry s task user mail stamp with
  | .ok s1 => (s1, true)
  | .error _ => (s, false)

/-- The filter of the query of `checkAndScheduleReminders`: reminder enabled,
not sent, time present. -/
def armed (t : Task) : Bool :=
  t.reminder.enabled && !t.reminder.sent && t.reminder.time.isSome

/-- The query `Task.find({ ... })` of `checkAndScheduleReminders`, over all
owners. -/
def dueSnapshot (s : Store) : List Task :=
  s.filter armed

/-- The test `reminderTime > now && reminderTime <= new Date(now.getTime() + 10000)`. -/
def inWindow (now time : Int) : Bool :=
  decide (time > now) && decide (time ≤ now + 10000)

/-- The window test on a task of the snapshot; `now` is the reading of
`new Date()` in the iteration of that task.  A task without time is never in
the window. -/
def eligible (now : Task → Int) (t : Task) : Bool :=
  match t.reminder.time with
  | some time => inWindow (now t) time
  | none => false

/-- One entry per call of `sendReminderEmail`: the `_id` of the task and the
returned flag. -/
abbrev DeliveryLog := List (Nat × Bool)

/-- The `for` loop of `checkAndScheduleReminders` over the snapshot, threading
the collection and the log of delivery attempts.  The clock of the cycle is
read once per iteration in this embedding: the stamp of the write is that
reading (the time that the mail transport takes is not modelled). -/
def reminderLoop (users : List User) (now : Task → Int) (mail : Task → Bool) :
    List Task → Store → DeliveryLog → Store × DeliveryLog
  | [], s, log => (s, log)
  | task :: rest, s, log =>
    if eligible now task then
      let r := sendReminderEmail s task (populate users task) mail (now task)
      reminderLoop users now mail rest r.1 (log ++ [(task._id, r.2)])
    else reminderLoop users now mail rest s log

/-- The `try` block of `checkAndScheduleReminders`: no statement of it throws,
since `sendReminderEmail` catches what its own block throws. -/
def checkAndScheduleRemindersTry (s : Store) (users : List User) (now : Task → Int)
    (mail : Task → Bool) : Except String (Store × DeliveryLog) :=
  .ok (reminderLoop users now mail (dueSnapshot s) s [])

/-- One poll cycle `checkAndScheduleReminders`: the collection after it and the
delivery attempts it made.  An error of the `try` block is logged and
swallowed. -/
def checkAndScheduleReminders (s : Store) (users : List User) (now : Task → Int)
    (mail : Task → Bool) : Store × DeliveryLog :=
  match checkAndScheduleRemindersTry s users now mail with
  | .ok r => r
  | .error _ => (s, [])

/-- The period of `setInterval(checkAndScheduleReminders, 10000)`. -/
def pollInterval : Int := 10000

/-- One later poll cycle: its clock readings and its transport outcomes. -/
structure Cycle where
  now : Task → Int
  mail : Task → Bool

/-- The poll cycles of a list, run one after the other: the collection after
them and the log of each cycle. -/
def runCycles (users : List User) : Store → List Cycle → Store × List DeliveryLog
  | s, [] => (s, [])
  | s, c :: cs =>
    let r := checkAndScheduleReminders s users c.now c.mail
    let rest := runCycles users r.1 cs
    (rest.1, r.2 :: rest.2)

/-- The number of delivery attempts of a log for one task id. -/
def attempts (log : DeliveryLog) (id : Nat) : Nat :=
  (log.filter (fun e => e.1 == id)).length

/-- The stored `reminder.sent` of the document with the given `_id`. -/
def sentOf (s : Store) (id : Nat) : Option Bool :=
  (s.find? (fun t => t._id == id)).map (fun t => t.reminder.sent)

/-- A task is delivered in a cycle when its user exists and the transport takes
the mail. -/
def delivered (users : List User) (mail : Task → Bool) (t : Task) : Bool :=
  (populate users t).isSome && mail t

/-- The ids of the tasks of a snapshot that are in the window and delivered:
the documents that one cycle marks as sent. -/
def deliveredIds (users : List User) (now : Task → Int) (mail : Task → Bool)
    (l : List Task) : List Nat :=
  (l.filter (fun t => eligible now t && delivered users mail t)).map (fun t => t._id)

/-- A create body whose reminder is enabled and says `sent: true`. -/
def sentBody : TaskBody :=
  { title := some "a"
    reminder := some { enabled := some true, time := some 5000, sent := some true } }

/-- The stamp that one cycle leaves on the document with the given id: the
clock reading of the last task of the snapshot with that id that was in the
window and delivered, if there is one. -/
def stampOf (users : List User) (now : Task → Int) (mail : Task → Bool) :
    List Task → Nat → Option Int
  | [], _ => none
  | a :: l, id =>
    match stampOf users now mail l id with
    | some stamp => some stamp
    | none =>
      if eligible now a && delivered users mail a && a._id == id then some (now a) else none

/-- Users 1 and 2; user 3 of `reminders` has no document. -/
def sampleUsers : List User :=
  [ { _id := 1 }, { _id := 2 } ]

/-- Six tasks with reminders: armed and due in 5 s (id 1), disabled (id 2),
already sent (id 3), armed but 60 s ahead (id 4), armed and due in 10 s with a
missing user (id 5), armed and already past (id 6). -/
def reminders : Store :=
  [ { _id := 1, user := 1, position := 0, reminder := { enabled := true, time := some 5000 } },
    { _id := 2, user := 1, position := 1, reminder := { enabled := false, time := some 5000 } },
    { _id := 3, user := 2, position := 0,
      reminder := { enabled := true, time := some 5000, sent := true } },
    { _id := 4, user := 2, position := 1, reminder := { enabled := true, time := some 60000 } },
    { _id := 5, user := 3, position := 0, reminder := { enabled := true, time := some 10000 } },
    { _id := 6, user := 1, position := 2, reminder := { enabled := true, time := some 0 } } ]

/-! ## Route handlers (`backend/routes/tasks.js`) -/

/-- The first task of a list by descending position, as `sort({ position: -1 })`
followed by `findOne` returns it. -/
def lastTaskOf : List Task → Option Task
  | [] => none
  | t :: rest =>
    match lastTaskOf rest with
    | none => some t
    | some m => if m.position > t.position then some m else some t

/-- The query `Task.findOne({ user }).sort({ position: -1 })`. -/
def lastTask (s : Store) (uid : Nat) : Option Task :=
  lastTaskOf (s.filter (fun t => t.user == uid))

/-- Handler `router.post('/')`: the position is `lastTask.position + 1`, or 0 for
an owner without tasks; there is no reminder default and no scheduling; every
error is answered with status 500. -/
def routerPost (s : Store) (uid newId : Nat) (body : TaskBody) : Store × Response :=
  let position : Int :=
    match lastTask s uid with
    | some l => l.position + 1
    | none => 0
  let task : Task := { newTask newId uid 0 body with position := position }
  if !validTask task then (s, ⟨500, .message "Server error"⟩)
  else if s.any (fun t => t._id == newId) then (s, ⟨500, .message "Server error"⟩)
  else (s ++ [task], ⟨200, .task task⟩)

/-- Handler `router.put('/:id')`: `Object.assign(task, req.body)` and `save()`.
An assigned `reminder` object without `sent` is stored with no `sent` field;
`Reminder.sent` has no value for an absent field and reads it as `false`, as
the schema default does when the document is loaded. -/
def routerPut (s : Store) (uid id : Nat) (body : TaskBody) : Store × Response :=
  match findOne s id uid with
  | none => (s, ⟨404, .message "Task not found"⟩)
  | some task =>
    let updatedTask := assignBody task body
    if !validTask updatedTask then (s, ⟨500, .message "Server error"⟩)
    else
      (s.map (fun t => if t._id == task._id then assignBody t body else t),
        ⟨200, .task updatedTask⟩)

/-- Handler `router.delete('/:id')`. -/
def routerDelete (s : Store) (uid id : Nat) : Store × Response :=
  match findOneAndDelete s id uid with
  | (none, _) => (s, ⟨404, .message "Task not found"⟩)
  | (some task, s1) =>
    (updateMany s1 (fun t => t.user == uid && decide (t.position > task.position)) (-1),
      ⟨200, .message "Task deleted"⟩)

/-- The body of the handler `router.put('/reorder')`.  As the routes are
registered, no request reaches it: see `servePutReorder`. -/
def routerReorder (s : Store) (uid taskId : Nat) (newPosition : Int) : Store × Response :=
  match findOne s taskId uid with
  | none => (s, ⟨404, .message "Task not found"⟩)
  | some task =>
    let oldPosition := task.position
    let s1 :=
      if newPosition > oldPosition then
        updateMany s (fun t => t.user == uid &&
          (decide (t.position > oldPosition) && decide (t.position ≤ newPosition))) (-1)
      else
        updateMany s (fun t => t.user == uid &&
          (decide (t.position ≥ newPosition) && decide (t.position < oldPosition))) 1
    let s2 := savePosition s1 task._id newPosition
    (s2, ⟨200, .tasks (findSorted s2 uid)⟩)

/-- A value of the object `analytics.byCategory`: a count, or the string that
`+ 1` makes of a value that is not a number. -/
inductive JsVal where
  | num (n : Nat)
  | text
deriving DecidableEq, Repr

/-- The property names that the object literal of `byCategory` inherits from
`Object.prototype`: reading one of them of a new object gives a function (or,
for `__proto__`, the prototype), not `undefined`. -/
def inheritedKeys : List String :=
  [ "constructor", "__defineGetter__", "__defineSetter__", "hasOwnProperty",
    "__lookupGetter__", "__lookupSetter__", "isPrototypeOf", "propertyIsEnumerable",
    "toString", "valueOf", "__proto__", "toLocaleString" ]

/-- The own property `key` of an object. -/
def getOwn (obj : List (String × JsVal)) (key : String) : Option JsVal :=
  (obj.find? (fun e => e.1 == key)).map (fun e => e.2)

/-- The assignment `obj[key] = v` of an own property. -/
def setOwn (obj : List (String × JsVal)) (key : String) (v : JsVal) : List (String × JsVal) :=
  if (obj.any (fun e => e.1 == key)) then obj.map (fun e => if e.1 == key then (key, v) else e)
  else obj ++ [(key, v)]

/-- The statement `byCategory[c] = (byCategory[c] || 0) + 1`.  An own count is
incremented; a string stays a string; a missing own property starts at 1,
unless the name is inherited: then the inherited value is not a number, and
the assignment to `__proto__` of a string is ignored. -/
def bumpCategory (obj : List (String × JsVal)) (c : String) : List (String × JsVal) :=
  match getOwn obj c with
  | some (.num n) => setOwn obj c (.num (n + 1))
  | some .text => setOwn obj c .text
  | none =>
    if c == "__proto__" then obj
    else if inheritedKeys.contains c then setOwn obj c .text
    else setOwn obj c (.num 1)

/-- The loop `tasks.forEach(task => { if (task.category) ... })`: a missing or
empty category is skipped. -/
def groupByCategory (tasks : List Task) : List (String × JsVal) :=
  tasks.foldl (fun obj t =>
    match t.category with
    | some c => if c != "" then bumpCategory obj c else obj
    | none => obj) []

/-- The JSON answer of `GET /tasks/analytics`. -/
structure Analytics where
  total : Nat
  completed : Nat
  pending : Nat
  inProgress : Nat
  byCategory : List (String × JsVal)
  high : Nat
  medium : Nat
  low : Nat
deriving DecidableEq, Repr

/-- Handler `router.get('/analytics')`. -/
def routerAnalytics (s : Store) (uid : Nat) : Analytics :=
  let tasks := s.filter (fun t => t.user == uid)
  { total := tasks.length
    completed := (tasks.filter (fun t => t.status == "completed")).length
    pending := (tasks.filter (fun t => t.status == "pending")).length
    inProgress := (tasks.filter (fun t => t.status == "in-progress")).length
    byCategory := groupByCategory tasks
    high := (tasks.filter (fun t => t.priority == "high")).length
    medium := (tasks.filter (fun t => t.priority == "medium")).length
    low := (tasks.filter (fun t => t.priority == "low")).length }

/-! ## Task dialog and board (`frontend/src/components/dashboard/Dashboard.js`) -/

/-- The value of a date field of the dialog state: empty, a string that
`new Date` parses to the given time, or a string that it does not parse. -/
inductive FormDate where
  | blank
  | date (ms : Int)
  | invalid
deriving DecidableEq, Repr

/-- The part of `localTask` that `handleSubmit` reads. -/
structure LocalTask where
  dueDate : FormDate := .blank
  reminderEnabled : Bool := false
  reminderTime : FormDate := .blank
deriving DecidableEq, Repr

/-- The part of `formData` that `handleSubmit` builds: ISO dates, or `null`. -/
structure FormData where
  dueDate : Option Int
  reminderEnabled : Bool
  reminderTime : Option Int
deriving DecidableEq, Repr

/-- The expression `x ? new Date(x).toISOString() : null`; `toISOString` throws a
`RangeError` for an invalid date. -/
def toISO : FormDate → Except String (Option Int)
  | .blank => .ok none
  | .date ms => .ok (some ms)
  | .invalid => .error "RangeError: Invalid time value"

/-- The `try` block of `TaskDialog.handleSubmit`: `some formData` when `onSave`
is called with it, `none` after a `return`; `now` is the reading of
`new Date()` in the first check. -/
def handleSubmitTry (localTask : LocalTask) (now : Int) : Except String (Option FormData) :=
  match toISO localTask.dueDate, toISO localTask.reminderTime with
  | .ok dueDate, .ok time =>
    let formData : FormData :=
      { dueDate := dueDate, reminderEnabled := localTask.reminderEnabled, reminderTime := time }
    match formData.reminderTime with
    | none => .ok (some formData)
    | some reminderTime =>
      if formData.reminderEnabled && decide (reminderTime < now) then .ok none
      else
        match formData.dueDate with
        | none => .ok (some formData)
        | some due =>
          if formData.reminderEnabled && decide (reminderTime > due) then .ok none
          else .ok (some formData)
  | .error e, _ => .error e
  | _, .error e => .error e

/-- The function `TaskDialog.handleSubmit`: the form data passed to `onSave`, if
it is called; the `catch` block shows a message and does not call it. -/
def handleSubmit (localTask : LocalTask) (now : Int) : Option FormData :=
  match handleSubmitTry localTask now with
  | .ok r => r
  | .error _ => none

/-- The test `title.toLowerCase().includes(searchTerm.toLowerCase())`, for ASCII
letters. -/
def includesLower (title searchTerm : String) : Bool :=
  decide ((searchTerm.data.map Char.toLower) <:+: (title.data.map Char.toLower))

/-- The list `filteredTasks` of the board. -/
def filteredTasks (tasks : List Task) (searchTerm filterStatus : String) : List Task :=
  (tasks.filter (fun task => includesLower task.title searchTerm)).filter
    (fun task => if filterStatus == "all" then true else task.status == filterStatus)

/-- A drop on the board: `handleDragEnd` sends the id of the displayed task at
index `source` with `newPosition` the destination index of the displayed
list; the reducer stores the list that the server returns, and the board
shows it filtered again.  The collection after the request and the new
displayed list. -/
def handleDragEnd (s : Store) (uid : Nat) (searchTerm filterStatus : String)
    (source destination : Nat) : Store × List Task :=
  let shown := filteredTasks (findSorted s uid) searchTerm filterStatus
  match shown.get? source with
  | none => (s, shown)
  | some dragged =>
    let r := reorderTasks s uid dragged._id (destination : Int)
    match r.2.body with
    | .tasks ts => (r.1, filteredTasks ts searchTerm filterStatus)
    | _ => (r.1, shown)

/-- Four tasks of owner 1, alternating pending and completed. -/
def board : Store :=
  [ { _id := 1, user := 1, position := 0, title := "Alpha", status := "pending" },
    { _id := 2, user := 1, position := 1, title := "Beta", status := "completed" },
    { _id := 3, user := 1, position := 2, title := "Gamma", status := "pending" },
    { _id := 4, user := 1, position := 3, title := "Delta", status := "completed" } ]

/-- Tasks of owner 1 with an empty category (twice), the category `work`
(twice) and the category `constructor`. -/
def categorised : Store :=
  [ { _id := 1, user := 1, position := 0, category := some "" },
    { _id := 2, user := 1, position := 1, category := some "work", status := "completed" },
    { _id := 3, user := 1, position := 2, category := some "", priority := "high" },
    { _id := 4, user := 1, position := 3, category := some "work" },
    { _id := 5, user := 1, position := 4, category := some "constructor" },
    { _id := 6, user := 2, position := 0, category := some "work" } ]

/-! ## Ids as requests carry them -/

/-- A task id as a request carries it (in the body or in the path): a value
that casts to an `ObjectId`, or one that does not, for example the string
`reorder`. -/
inductive RawId where
  | objectId (id : Nat)
  | malformed
deriving DecidableEq, Repr

/-- Handler `reorderTasks` on the `taskId` of the body as received: for a value
that does not cast, `Task.findOne` throws a `CastError` and the `catch` block
answers with status 400; nothing is written. -/
def reorderTasksRaw (s : Store) (uid : Nat) (taskId : RawId) (newPosition : Int) :
    Store × Response :=
  match taskId with
  | .objectId id => reorderTasks s uid id newPosition
  | .malformed => (s, ⟨400, .message "Cast to ObjectId failed"⟩)

/-- Handler `deleteTask` on the `id` of the path as received: for a value that
does not cast, `Task.findOneAndDelete` throws a `CastError` and the `catch`
block answers with status 500; nothing is written. -/
def deleteTaskRaw (s : Store) (uid : Nat) (id : RawId) : Store × Response :=
  match id with
  | .objectId i => deleteTask s uid i
  | .malformed => (s, ⟨500, .message "Cast to ObjectId failed"⟩)

/-- Handler `router.put('/:id')` on the `id` of the path as received: for a value
that does not cast, `Task.findOne` throws a `CastError` and the `catch` block
answers with status 500; nothing is written. -/
def routerPutRaw (s : Store) (uid : Nat) (id : RawId) (body : TaskBody) : Store × Response :=
  match id with
  | .objectId i => routerPut s uid i body
  | .malformed => (s, ⟨500, .message "Server error"⟩)

/-- A request `PUT /reorder` with body `{ taskId, newPosition }` as the router of
`routes/tasks.js` serves it.  The routes are tried in the order of
registration: `router.put('/:id')` is registered before
`router.put('/reorder')`, matches the path with `id = 'reorder'` and answers
without calling `next()`.  The id `reorder` does not cast, and the handler
`routerReorder` is never reached. -/
def servePutReorder (s : Store) (uid _taskId : Nat) (_newPosition : Int) : Store × Response :=
  routerPutRaw s uid .malformed {}

/-! ## Collection lemmas -/

theorem updateMany_ids (s : Store) (f : Task → Bool) (d : Int) :
    (updateMany s f d).map (fun t => t._id) = s.map (fun t => t._id) := by
  unfold updateMany
  rw [List.map_map]
  apply List.map_congr_left
  intro t _
  show (if f t then _ else t)._id = t._id
  split <;> rfl

theorem savePosition_ids (s : Store) (id : Nat) (p : Int) :
    (savePosition s id p).map (fun t => t._id) = s.map (fun t => t._id) := by
  unfold savePosition
  rw [List.map_map]
  apply List.map_congr_left
  intro t _
  show (if (t._id == id) = true then _ else t)._id = t._id
  split <;> rfl

/-- Filtering by owner commutes with a map that keeps the owner. -/
theorem filter_user_map (s : Store) (g : Task → Task) (uid : Nat)
    (hg : ∀ t, (g t).user = t.user) :
    (s.map g).filter (fun t => t.user == uid) = (s.filter (fun t => t.user == uid)).map g := by
  induction s with
  | nil => rfl
  | cons a l ih =>
    by_cases h : a.user = uid
    · simp [List.filter_cons, hg, h, ih]
    · simp [List.filter_cons, hg, h, ih]

/-- Two documents of a collection with unique ids and the same id are the
same document. -/
theorem eq_of_id_eq {s : Store} (hu : UniqueIds s) {a b : Task}
    (ha : a ∈ s) (hb : b ∈ s) (h : a._id = b._id) : a = b :=
  List.inj_on_of_nodup_map hu ha hb h

/-- In a collection with unique ids, looking a member up by id finds it. -/
theorem find_id_of_mem {s : Store} (hu : UniqueIds s) {t : Task} (ht : t ∈ s) :
    s.find? (fun x => x._id == t._id) = some t := by
  induction s with
  | nil => cases ht
  | cons a l ih =>
    have hu2 : UniqueIds l := (List.nodup_cons.mp hu).2
    by_cases h : a._id = t._id
    · have : a = t := eq_of_id_eq hu (List.mem_cons_self _ _) ht h
      subst this
      simp [List.find?_cons]
    · have htl : t ∈ l := by
        rcases List.mem_cons.mp ht with h1 | h1
        · exact absurd (by rw [h1]) h
        · exact h1
      simp [List.find?_cons, h, ih hu2 htl]

theorem findOne_mem {s : Store} {id uid : Nat} {task : Task}
    (h : findOne s id uid = some task) : task ∈ s :=
  List.mem_of_find?_eq_some h

theorem findOne_spec {s : Store} {id uid : Nat} {task : Task}
    (h : findOne s id uid = some task) : task._id = id ∧ task.user = uid := by
  have := List.find?_some h
  simpa using this

/-- The stored position after a map that keeps ids. -/
theorem positionOf_map {s : Store} (hu : UniqueIds s) (g : Task → Task)
    (hg : ∀ t, (g t)._id = t._id) {t : Task} (ht : t ∈ s) :
    positionOf (s.map g) t._id = some (g t).position := by
  unfold positionOf
  rw [List.find?_map]
  have : ((fun x : Task => x._id == t._id) ∘ g) = (fun x : Task => x._id == t._id) := by
    funext x; simp [hg]
  rw [this, find_id_of_mem hu ht]
  rfl

/-- Lookup by id and owner after a map that keeps both. -/
theorem findOne_map (s : Store) (g : Task → Task) (id uid : Nat)
    (hg : ∀ t, (g t)._id = t._id) (hg2 : ∀ t, (g t).user = t.user) :
    findOne (s.map g) id uid = (findOne s id uid).map g := by
  unfold findOne
  rw [List.find?_map]
  have : ((fun x : Task => x._id == id && x.user == uid) ∘ g)
      = (fun x : Task => x._id == id && x.user == uid) := by
    funext x; simp [hg, hg2]
  rw [this]

/-- The per-document effect of a range shift followed by the save of the moved
document. -/
theorem save_update_eq_map (s : Store) (f : Task → Bool) (d : Int) (id : Nat) (q : Int) :
    savePosition (updateMany s f d) id q
      = s.map (fun t => if t._id = id then { t with position := q }
          else if f t then { t with position := t.position + d } else t) := by
  unfold savePosition updateMany
  rw [List.map_map]
  apply List.map_congr_left
  intro t _
  by_cases h1 : t._id = id <;> by_cases h2 : f t = true <;> simp [h1, h2]

/-- The collection left by `reorderTasks` when the task is found. -/
theorem reorderTasks_found {s : Store} {uid taskId : Nat} {task : Task} (q : Int)
    (hf : findOne s taskId uid = some task) :
    (reorderTasks s uid taskId q).1 =
      savePosition
        (if q > task.position then
          updateMany s (fun t => t.user == uid &&
            (decide (t.position > task.position) && decide (t.position ≤ q))) (-1)
        else
          updateMany s (fun t => t.user == uid &&
            (decide (t.position ≥ q) && decide (t.position < task.position))) 1)
        taskId q := by
  have hid := (findOne_spec hf).1
  simp only [reorderTasks, hf, hid]

/-- Stored position of a member after a range shift and the save. -/
theorem positionOf_save_update {s : Store} (hu : UniqueIds s) (f : Task → Bool) (d : Int)
    (id : Nat) (q : Int) {t : Task} (ht : t ∈ s) :
    positionOf (savePosition (updateMany s f d) id q) t._id
      = some (if t._id = id then q else if f t then t.position + d else t.position) := by
  rw [save_update_eq_map, positionOf_map hu _ _ ht]
  · by_cases h1 : t._id = id <;> by_cases h2 : f t = true <;> simp [h1, h2]
  · intro x
    by_cases h1 : x._id = id <;> by_cases h2 : f x = true <;> simp [h1, h2]

/-- Stored position of a member after `reorderTasks` found `task`. -/
theorem positionOf_reorder {s : Store} (hu : UniqueIds s) {uid taskId : Nat} {task : Task}
    (q : Int) (hf : findOne s taskId uid = some task) {t : Task} (ht : t ∈ s) :
    positionOf (reorderTasks s uid taskId q).1 t._id
      = some (if t._id = taskId then q
          else if t.user = uid ∧ task.position < t.position ∧ t.position ≤ q then t.position - 1
          else if t.user = uid ∧ q ≤ t.position ∧ t.position < task.position then t.position + 1
          else t.position) := by
  rw [reorderTasks_found q hf]
  by_cases hq : q > task.position
  · rw [if_pos hq, positionOf_save_update hu _ _ _ _ ht]
    by_cases h1 : t._id = taskId
    · simp [h1]
    · by_cases h2 : t.user = uid <;> by_cases h3 : task.position < t.position <;>
        by_cases h4 : t.position ≤ q <;> simp [h1, h2, h3, h4] <;> omega
  · rw [if_neg hq, positionOf_save_update hu _ _ _ _ ht]
    by_cases h1 : t._id = taskId
    · simp [h1]
    · by_cases h2 : t.user = uid <;> by_cases h3 : q ≤ t.position <;>
        by_cases h4 : t.position < task.position <;> simp [h1, h2, h3, h4] <;> omega

/-! ## Density lemmas -/

theorem mem_firstPositions (n : Nat) (x : Int) : x ∈ firstPositions n ↔ 0 ≤ x ∧ x < n := by
  unfold firstPositions
  constructor
  · intro h
    obtain ⟨i, hi, rfl⟩ := List.mem_map.mp h
    have := List.mem_range.mp hi
    omega
  · intro ⟨h0, h1⟩
    refine List.mem_map.mpr ⟨x.toNat, List.mem_range.mpr (by omega), by omega⟩

theorem firstPositions_nodup (n : Nat) : (firstPositions n).Nodup := by
  unfold firstPositions
  exact (List.nodup_range n).map (fun a b h => by simpa using h)

theorem firstPositions_sorted (n : Nat) : (firstPositions n).Sorted (fun a b => a ≤ b) := by
  unfold firstPositions
  have h : (List.range n).Sorted (fun a b => a ≤ b) := (List.sorted_lt_range n).le_of_lt
  unfold List.Sorted at *
  exact List.Pairwise.map _ (fun a b hab => by exact_mod_cast hab) h

theorem firstPositions_length (n : Nat) : (firstPositions n).length = n := by
  simp [firstPositions]

/-- A duplicate-free list of `n` integers inside `[0, n)` is a rearrangement of
`[0, ..., n-1]`. -/
theorem perm_firstPositions {l : List Int} (hn : l.Nodup)
    (hb : ∀ x ∈ l, 0 ≤ x ∧ x < l.length) : l.Perm (firstPositions l.length) := by
  have hsub : l.toFinset ⊆ (firstPositions l.length).toFinset := by
    intro x hx
    rw [List.mem_toFinset] at hx ⊢
    exact (mem_firstPositions _ _).mpr (hb x hx)
  have hcard : (firstPositions l.length).toFinset.card ≤ l.toFinset.card := by
    rw [List.toFinset_card_of_nodup hn, List.toFinset_card_of_nodup (firstPositions_nodup _),
      firstPositions_length]
  have heq := Finset.eq_of_subset_of_card_le hsub hcard
  exact List.perm_of_nodup_nodup_toFinset_eq hn (firstPositions_nodup _) heq

theorem sort_eq_firstPositions_iff (l : List Int) :
    l.insertionSort (fun a b => a ≤ b) = firstPositions l.length
      ↔ l.Nodup ∧ ∀ x ∈ l, 0 ≤ x ∧ x < l.length := by
  constructor
  · intro h
    have hp : l.Perm (firstPositions l.length) := by
      rw [← h]; exact (List.perm_insertionSort _ l).symm
    refine ⟨hp.nodup_iff.mpr (firstPositions_nodup _), fun x hx => ?_⟩
    exact (mem_firstPositions _ _).mp (hp.mem_iff.mp hx)
  · intro ⟨hn, hb⟩
    have hp := perm_firstPositions hn hb
    exact List.eq_of_perm_of_sorted ((List.perm_insertionSort _ l).trans hp)
      (List.sorted_insertionSort _ l) (firstPositions_sorted _)

theorem countDocuments_eq (s : Store) (uid : Nat) :
    countDocuments s uid = (positionsOf s uid).length := by
  simp [countDocuments, positionsOf]

/-- Density of an owner: no position occurs twice and every position lies in
`[0, n)`. -/
theorem dense_iff (s : Store) (uid : Nat) :
    Dense s uid ↔ (positionsOf s uid).Nodup ∧
      ∀ x ∈ positionsOf s uid, 0 ≤ x ∧ x < countDocuments s uid := by
  unfold Dense
  rw [countDocuments_eq]
  exact sort_eq_firstPositions_iff _

/-- The decomposition of the collection around the document that
`findOneAndDelete` removes. -/
theorem deleteTask_found {s : Store} {uid id : Nat} {task : Task}
    (hf : findOne s id uid = some task) :
    ∃ l₁ l₂, s = l₁ ++ task :: l₂ ∧ (∀ b ∈ l₁, ¬ (b._id = id ∧ b.user = uid)) ∧
      (deleteTask s uid id).1 = updateMany (l₁ ++ l₂)
        (fun t => t.user == uid && decide (t.position > task.position)) (-1) := by
  obtain ⟨hp, l₁, l₂, hs, hl⟩ := List.find?_eq_some.mp hf
  have hl2 : ∀ b ∈ l₁, ¬ (b._id == id && b.user == uid) = true := by
    intro b hb
    have := hl b hb
    intro hc
    rw [hc] at this
    exact absurd this (by decide)
  refine ⟨l₁, l₂, hs, ?_, ?_⟩
  · intro b hb hb2
    exact hl2 b hb (by simp [hb2.1, hb2.2])
  · have he : s.eraseP (fun x => x._id == id && x.user == uid) = l₁ ++ l₂ := by
      rw [hs, List.eraseP_append_right _ hl2]
      congr 1
      exact List.eraseP_cons_of_pos (p := fun (x : Task) => x._id == id && x.user == uid) hp
    simp only [deleteTask, findOneAndDelete, hf, he]

/-- Owner positions after a range shift of that owner. -/
theorem positionsOf_updateMany (s : Store) (uid : Nat) (c : Int → Bool) (d : Int) :
    positionsOf (updateMany s (fun t => t.user == uid && c t.position) d) uid
      = (positionsOf s uid).map (fun r => if c r then r + d else r) := by
  unfold positionsOf updateMany
  rw [filter_user_map, List.map_map, List.map_map]
  · apply List.map_congr_left
    intro t ht
    have hu : t.user = uid := by simpa using (List.mem_filter.mp ht).2
    by_cases h : c t.position = true <;> simp [hu, h]
  · intro t
    by_cases h : (t.user == uid && c t.position) = true <;> simp [h]

/-- A range shift of one owner leaves the documents of every other owner
alone. -/
theorem filter_updateMany_other (s : Store) (a b : Nat) (hab : a ≠ b) (c : Task → Bool)
    (d : Int) :
    (updateMany s (fun t => t.user == a && c t) d).filter (fun t => t.user == b)
      = s.filter (fun t => t.user == b) := by
  unfold updateMany
  rw [filter_user_map]
  · conv_rhs => rw [← List.map_id (s.filter (fun t => t.user == b))]
    apply List.map_congr_left
    intro t ht
    have hu : t.user = b := by simpa using (List.mem_filter.mp ht).2
    have : ¬ t.user = a := by rw [hu]; exact fun h => hab h.symm
    simp [this]
  · intro t
    by_cases h : (t.user == a && c t) = true <;> simp [h]

/-- Among the documents of the owner, the found task is the one at its
position. -/
theorem id_eq_iff_position_eq {s : Store} {uid taskId : Nat} {task : Task}
    (hu : UniqueIds s) (hn : (positionsOf s uid).Nodup)
    (hf : findOne s taskId uid = some task) {t : Task} (ht : t ∈ s) (htu : t.user = uid) :
    t._id = taskId ↔ t.position = task.position := by
  have hm := findOne_mem hf
  obtain ⟨hid, hus⟩ := findOne_spec hf
  constructor
  · intro h
    rw [eq_of_id_eq hu ht hm (h.trans hid.symm)]
  · intro h
    have h1 : t ∈ s.filter (fun x => x.user == uid) :=
      List.mem_filter.mpr ⟨ht, by simp [htu]⟩
    have h2 : task ∈ s.filter (fun x => x.user == uid) :=
      List.mem_filter.mpr ⟨hm, by simp [hus]⟩
    rw [List.inj_on_of_nodup_map hn h1 h2 h, hid]

/-- The position map that a move from `p` to `q` applies to the owner. -/
theorem positionsOf_reorder {s : Store} {uid taskId : Nat} {task : Task}
    (hu : UniqueIds s) (hn : (positionsOf s uid).Nodup) (q : Int)
    (hf : findOne s taskId uid = some task) :
    positionsOf (reorderTasks s uid taskId q).1 uid
      = (positionsOf s uid).map (fun r =>
          if r = task.position then q
          else if task.position < r ∧ r ≤ q then r - 1
          else if q ≤ r ∧ r < task.position then r + 1
          else r) := by
  rw [reorderTasks_found q hf]
  by_cases hq : q > task.position
  · rw [if_pos hq, save_update_eq_map]
    unfold positionsOf
    rw [filter_user_map, List.map_map, List.map_map]
    · apply List.map_congr_left
      intro t ht
      obtain ⟨hts, htu⟩ := List.mem_filter.mp ht
      have htu2 : t.user = uid := by simpa using htu
      have hiff := id_eq_iff_position_eq hu hn hf hts htu2
      by_cases h1 : t._id = taskId
      · simp [h1, hiff.mp h1]
      · have h1b : ¬ t.position = task.position := fun h => h1 (hiff.mpr h)
        by_cases h3 : task.position < t.position <;> by_cases h4 : t.position ≤ q <;>
          simp [h1, h1b, htu2, h3, h4] <;> omega
    · intro t
      by_cases h1 : t._id = taskId <;>
        by_cases h2 : (t.user == uid &&
          (decide (t.position > task.position) && decide (t.position ≤ q))) = true <;>
        simp [h1, h2]
  · rw [if_neg hq, save_update_eq_map]
    unfold positionsOf
    rw [filter_user_map, List.map_map, List.map_map]
    · apply List.map_congr_left
      intro t ht
      obtain ⟨hts, htu⟩ := List.mem_filter.mp ht
      have htu2 : t.user = uid := by simpa using htu
      have hiff := id_eq_iff_position_eq hu hn hf hts htu2
      by_cases h1 : t._id = taskId
      · simp [h1, hiff.mp h1]
      · have h1b : ¬ t.position = task.position := fun h => h1 (hiff.mpr h)
        by_cases h3 : q ≤ t.position <;> by_cases h4 : t.position < task.position <;>
          simp [h1, h1b, htu2, h3, h4] <;> omega
    · intro t
      by_cases h1 : t._id = taskId <;>
        by_cases h2 : (t.user == uid &&
          (decide (t.position ≥ q) && decide (t.position < task.position))) = true <;>
        simp [h1, h2]

/-- Density is a property of the owner's documents only. -/
theorem dense_congr {s1 s2 : Store} {uid : Nat}
    (h : s1.filter (fun t => t.user == uid) = s2.filter (fun t => t.user == uid)) :
    Dense s1 uid ↔ Dense s2 uid := by
  unfold Dense positionsOf countDocuments
  rw [h]

theorem reorderTasks_ids (s : Store) (uid taskId : Nat) (q : Int) :
    (reorderTasks s uid taskId q).1.map (fun t => t._id) = s.map (fun t => t._id) := by
  cases hf : findOne s taskId uid with
  | none => simp [reorderTasks, hf]
  | some task =>
    rw [reorderTasks_found q hf, savePosition_ids]
    split <;> exact updateMany_ids _ _ _

/-- A move to a position inside `[0, n)` keeps the owner dense. -/
theorem reorderTasks_dense {s : Store} {uid taskId : Nat} {task : Task}
    (hu : UniqueIds s) (hd : Dense s uid) (q : Int)
    (hf : findOne s taskId uid = some task)
    (h0 : 0 ≤ q) (h1 : q < countDocuments s uid) :
    Dense (reorderTasks s uid taskId q).1 uid := by
  obtain ⟨hn, hb⟩ := (dense_iff s uid).mp hd
  have hpos := positionsOf_reorder hu hn q hf
  have hp : task.position ∈ positionsOf s uid := by
    unfold positionsOf
    exact List.mem_map.mpr ⟨task, List.mem_filter.mpr
      ⟨findOne_mem hf, by simp [(findOne_spec hf).2]⟩, rfl⟩
  have hpb := hb _ hp
  have hc : countDocuments (reorderTasks s uid taskId q).1 uid = countDocuments s uid := by
    rw [countDocuments_eq, countDocuments_eq, hpos, List.length_map]
  rw [dense_iff, hc, hpos]
  constructor
  · apply List.Nodup.map_on _ hn
    intro x hx y hy hxy
    have := hb x hx
    have := hb y hy
    split_ifs at hxy <;> omega
  · intro x hx
    obtain ⟨r, hr, rfl⟩ := List.mem_map.mp hx
    have := hb r hr
    split_ifs <;> omega

/-- A request of owner `a` to `reorderTasks` leaves the documents of another
owner as they are. -/
theorem reorderTasks_other {s : Store} (hu : UniqueIds s) (a b taskId : Nat) (hab : a ≠ b)
    (q : Int) :
    (reorderTasks s a taskId q).1.filter (fun t => t.user == b)
      = s.filter (fun t => t.user == b) := by
  cases hf : findOne s taskId a with
  | none => simp [reorderTasks, hf]
  | some task =>
    obtain ⟨hid, hus⟩ := findOne_spec hf
    have hsave : ∀ s1 : Store, s1.map (fun t => t._id) = s.map (fun t => t._id) →
        s1.filter (fun t => t.user == b) = s.filter (fun t => t.user == b) →
        (savePosition s1 taskId q).filter (fun t => t.user == b)
          = s.filter (fun t => t.user == b) := by
      intro s1 _ hfil
      unfold savePosition
      rw [filter_user_map, hfil]
      · conv_rhs => rw [← List.map_id (s.filter (fun t => t.user == b))]
        apply List.map_congr_left
        intro t ht
        obtain ⟨hts, htu⟩ := List.mem_filter.mp ht
        have htu2 : t.user = b := by simpa using htu
        have hne : ¬ t._id = taskId := by
          intro h
          have := eq_of_id_eq hu hts (findOne_mem hf) (h.trans hid.symm)
          rw [this, hus] at htu2
          exact hab htu2
        simp [hne]
      · intro t
        by_cases h : (t._id == taskId) = true <;> simp [h]
    rw [reorderTasks_found q hf]
    split
    · exact hsave _ (updateMany_ids _ _ _) (filter_updateMany_other s a b hab _ _)
    · exact hsave _ (updateMany_ids _ _ _) (filter_updateMany_other s a b hab _ _)

/-- A request of owner `a` to `deleteTask` leaves the documents of another
owner as they are. -/
theorem deleteTask_other (s : Store) (a b id : Nat) (hab : a ≠ b) :
    (deleteTask s a id).1.filter (fun t => t.user == b)
      = s.filter (fun t => t.user == b) := by
  cases hf : findOne s id a with
  | none => simp [deleteTask, findOneAndDelete, hf]
  | some task =>
    obtain ⟨l₁, l₂, hs, _, hdel⟩ := deleteTask_found hf
    have hus := (findOne_spec hf).2
    rw [hdel, filter_updateMany_other _ a b hab (fun t => decide (t.position > task.position))]
    have : ¬ task.user = b := by rw [hus]; exact hab
    rw [hs]
    simp [List.filter_cons, this]

/-- The ids left by `deleteTask`: those of the collection without the
requested one. -/
theorem deleteTask_ids {s : Store} (hu : UniqueIds s) {uid id : Nat} {task : Task}
    (hf : findOne s id uid = some task) :
    (deleteTask s uid id).1.map (fun t => t._id) = (s.map (fun t => t._id)).erase id := by
  obtain ⟨l₁, l₂, hs, _, hdel⟩ := deleteTask_found hf
  have hid := (findOne_spec hf).1
  rw [hdel, updateMany_ids]
  have hu2 : UniqueIds (l₁ ++ task :: l₂) := hs ▸ hu
  unfold UniqueIds at hu2
  rw [List.map_append, List.map_cons, hid] at hu2
  have hnot : id ∉ l₁.map (fun t => t._id) := by
    intro hmem
    have := (List.nodup_append.mp hu2).2.2
    exact this hmem (List.mem_cons_self _ _)
  rw [hs]
  simp only [List.map_append, List.map_cons, hid]
  rw [List.erase_append_right _ hnot, List.erase_cons_head]

theorem deleteTask_uniqueIds {s : Store} (hu : UniqueIds s) (uid id : Nat) :
    UniqueIds (deleteTask s uid id).1 := by
  cases hf : findOne s id uid with
  | none => simpa [deleteTask, findOneAndDelete, hf] using hu
  | some task =>
    unfold UniqueIds
    rw [deleteTask_ids hu hf]
    exact hu.erase _

/-- Deleting a found task of a dense owner: one document less, and the owner
is dense again. -/
theorem deleteTask_dense {s : Store} {uid id : Nat} {task : Task}
    (hd : Dense s uid) (hf : findOne s id uid = some task) :
    countDocuments (deleteTask s uid id).1 uid + 1 = countDocuments s uid ∧
      Dense (deleteTask s uid id).1 uid := by
  obtain ⟨l₁, l₂, hs, _, hdel⟩ := deleteTask_found hf
  have hus := (findOne_spec hf).2
  obtain ⟨hn, hb⟩ := (dense_iff s uid).mp hd
  have hP : positionsOf s uid
      = positionsOf l₁ uid ++ task.position :: positionsOf l₂ uid := by
    rw [hs]; simp [positionsOf, List.filter_cons, hus]
  have hP1 : positionsOf (l₁ ++ l₂) uid = positionsOf l₁ uid ++ positionsOf l₂ uid := by
    simp [positionsOf]
  have hpos : positionsOf (deleteTask s uid id).1 uid
      = (positionsOf (l₁ ++ l₂) uid).map
          (fun r => if decide (r > task.position) then r + -1 else r) := by
    rw [hdel]
    exact positionsOf_updateMany (l₁ ++ l₂) uid (fun r => decide (r > task.position)) (-1)
  have hc : countDocuments (deleteTask s uid id).1 uid + 1 = countDocuments s uid := by
    rw [countDocuments_eq, countDocuments_eq, hpos, hP, hP1]
    simp only [List.length_map, List.length_append, List.length_cons]
    omega
  rw [hP] at hn hb
  have hn1 : (positionsOf (l₁ ++ l₂) uid).Nodup := by
    rw [hP1]
    exact hn.sublist (List.Sublist.append_left (List.sublist_cons_self _ _) _)
  have hk : ∀ x ∈ positionsOf (l₁ ++ l₂) uid, x ≠ task.position ∧ 0 ≤ x ∧
      x < countDocuments s uid := by
    intro x hx
    rw [hP1] at hx
    have hx2 : x ∈ positionsOf l₁ uid ++ task.position :: positionsOf l₂ uid := by
      rcases List.mem_append.mp hx with h | h
      · exact List.mem_append_left _ h
      · exact List.mem_append_right _ (List.mem_cons_of_mem _ h)
    refine ⟨?_, hb x hx2⟩
    intro hxe
    subst hxe
    have hnn := List.nodup_append.mp hn
    rcases List.mem_append.mp hx with h | h
    · exact hnn.2.2 h (List.mem_cons_self _ _)
    · exact (List.nodup_cons.mp hnn.2.1).1 h
  have hkb := hb task.position (List.mem_append_right _ (List.mem_cons_self _ _))
  refine ⟨hc, ?_⟩
  rw [dense_iff, hpos]
  constructor
  · apply List.Nodup.map_on _ hn1
    intro x hx y hy hxy
    have := hk x hx
    have := hk y hy
    simp only [decide_eq_true_eq] at hxy
    split_ifs at hxy <;> omega
  · intro x hx
    obtain ⟨r, hr, rfl⟩ := List.mem_map.mp hx
    have := hk r hr
    simp only [decide_eq_true_eq]
    split_ifs <;> omega

/-- The two outcomes of `createTask` on the collection: nothing is stored, or
one document with a new id is appended for the caller at position `count`. -/
theorem createTask_store (s : Store) (uid newId : Nat) (body : TaskBody) :
    (createTask s uid newId body).1 = s ∨
      (newId ∉ s.map (fun t => t._id) ∧ ∃ task : Task, task._id = newId ∧ task.user = uid ∧
        task.position = countDocuments s uid ∧ (createTask s uid newId body).1 = s ++ [task]) := by
  unfold createTask
  cases hb : defaultReminderTime body with
  | none => left; rfl
  | some b =>
    dsimp only
    by_cases hv : validTask (newTask newId uid (countDocuments s uid) b) = true
    · by_cases hdup : s.any (fun t => t._id == newId) = true
      · left; simp [hv, hdup]
      · right
        refine ⟨?_, newTask newId uid (countDocuments s uid) b, rfl, rfl, rfl, ?_⟩
        · intro hmem
          apply hdup
          obtain ⟨t, ht, hte⟩ := List.mem_map.mp hmem
          exact List.any_eq_true.mpr ⟨t, ht, by simp [hte]⟩
        · simp only [hv, hdup, scheduleReminder, Bool.not_true, Bool.false_eq_true, if_false]
          split <;> rfl
    · left; simp [hv]

theorem createTask_inv {s : Store} (h : Inv s) (uid newId : Nat) (body : TaskBody) :
    Inv (createTask s uid newId body).1 := by
  rcases createTask_store s uid newId body with he | ⟨hnew, task, hid, hus, hpos, he⟩
  · rw [he]; exact h
  · rw [he]
    obtain ⟨hu, hd⟩ := h
    constructor
    · unfold UniqueIds
      rw [List.map_append, List.map_cons, List.map_nil, hid]
      exact List.Nodup.append hu (List.nodup_singleton _)
        (by
          intro x hx hx2
          rw [List.mem_singleton] at hx2
          exact hnew (hx2 ▸ hx))
    · intro v
      by_cases hv : uid = v
      · subst hv
        obtain ⟨hn, hb⟩ := (dense_iff s uid).mp (hd uid)
        have hP : positionsOf (s ++ [task]) uid
            = positionsOf s uid ++ [(countDocuments s uid : Int)] := by
          simp [positionsOf, List.filter_cons, hus, hpos]
        have hc : countDocuments (s ++ [task]) uid = countDocuments s uid + 1 := by
          rw [countDocuments_eq, countDocuments_eq, hP]; simp
        rw [dense_iff, hc, hP]
        constructor
        · refine List.Nodup.append hn (List.nodup_singleton _) ?_
          intro x hx hx2
          rw [List.mem_singleton] at hx2
          have := hb x hx
          omega
        · intro x hx
          rcases List.mem_append.mp hx with h1 | h1
          · have := hb x h1
            omega
          · rw [List.mem_singleton] at h1
            omega
      · have hne : ¬ task.user = v := by rw [hus]; exact hv
        have hfil : (s ++ [task]).filter (fun t => t.user == v)
            = s.filter (fun t => t.user == v) := by
          simp [List.filter_cons, hne]
        exact (dense_congr hfil).mpr (hd v)

theorem deleteTask_inv {s : Store} (h : Inv s) (uid id : Nat) :
    Inv (deleteTask s uid id).1 := by
  obtain ⟨hu, hd⟩ := h
  refine ⟨deleteTask_uniqueIds hu uid id, fun v => ?_⟩
  by_cases hv : uid = v
  · subst hv
    cases hf : findOne s id uid with
    | none => simpa [deleteTask, findOneAndDelete, hf] using hd uid
    | some task => exact (deleteTask_dense (hd uid) hf).2
  · exact (dense_congr (deleteTask_other s uid v id hv)).mpr (hd v)

theorem reorderTasks_inv {s : Store} (h : Inv s) (uid taskId : Nat) (q : Int)
    (hr : inRange s (.reorder uid taskId q) = true) :
    Inv (reorderTasks s uid taskId q).1 := by
  obtain ⟨hu, hd⟩ := h
  constructor
  · unfold UniqueIds
    rw [reorderTasks_ids]
    exact hu
  · intro v
    by_cases hv : uid = v
    · subst hv
      cases hf : findOne s taskId uid with
      | none => simpa [reorderTasks, hf] using hd uid
      | some task =>
        simp only [inRange, hf, Option.isNone_some, Bool.false_or, Bool.and_eq_true,
          decide_eq_true_eq] at hr
        exact reorderTasks_dense hu (hd uid) q hf hr.1 hr.2
    · exact (dense_congr (reorderTasks_other hu uid v taskId hv q)).mpr (hd v)

theorem run_inv (rs : List Request) : ∀ s : Store, Inv s → allInRange s rs = true →
    Inv (run s rs) := by
  induction rs with
  | nil => intro s h _; exact h
  | cons r rs ih =>
    intro s h hr
    simp only [allInRange, Bool.and_eq_true] at hr
    have hstep : Inv (step s r) := by
      cases r with
      | create uid newId body => exact createTask_inv h uid newId body
      | delete uid id => exact deleteTask_inv h uid id
      | reorder uid taskId q => exact reorderTasks_inv h uid taskId q hr.1
    exact ih (step s r) hstep hr.2

/-! ## The per-document form of a move -/

theorem moved_id (uid taskId : Nat) (p q : Int) (t : Task) :
    (moved uid taskId p q t)._id = t._id := by
  unfold moved; split_ifs <;> rfl

theorem moved_user (uid taskId : Nat) (p q : Int) (t : Task) :
    (moved uid taskId p q t).user = t.user := by
  unfold moved; split_ifs <;> rfl

theorem moved_position (uid taskId : Nat) (p q : Int) (t : Task) :
    (moved uid taskId p q t).position =
      if t._id = taskId then q
      else if t.user = uid ∧ p < t.position ∧ t.position ≤ q then t.position - 1
      else if t.user = uid ∧ q ≤ t.position ∧ t.position < p then t.position + 1
      else t.position := by
  unfold moved; split_ifs <;> rfl

/-- The handler as a map over the collection. -/
theorem reorderTasks_eq_map {s : Store} {uid taskId : Nat} {task : Task} (q : Int)
    (hf : findOne s taskId uid = some task) :
    (reorderTasks s uid taskId q).1 = s.map (moved uid taskId task.position q) := by
  rw [reorderTasks_found q hf]
  by_cases hq : q > task.position
  · rw [if_pos hq, save_update_eq_map]
    apply List.map_congr_left
    intro t _
    simp only [Bool.and_eq_true, beq_iff_eq, decide_eq_true_eq, gt_iff_lt]
    unfold moved
    split_ifs <;> first | rfl | (exfalso; omega)
  · rw [if_neg hq, save_update_eq_map]
    apply List.map_congr_left
    intro t _
    simp only [Bool.and_eq_true, beq_iff_eq, decide_eq_true_eq, ge_iff_le]
    unfold moved
    split_ifs <;> first | rfl | (exfalso; omega)

/-! ## Claims -/

/-- C1, as amended.  Density invariant: starting from the empty collection,
after every finite sequence of `createTask`, `deleteTask` and `reorderTasks`
requests in which each reorder request that finds its task carries a
`newPosition` in `[0, n-1]` (`n` the number of tasks of the caller at that
moment), the sorted positions of every owner are exactly `[0, ..., n-1]`. -/
theorem density_invariant (rs : List Request) (hr : allInRange [] rs = true) (uid : Nat) :
    Dense (run [] rs) uid :=
  (run_inv rs [] ⟨List.nodup_nil, fun _ => rfl⟩ hr).2 uid

/-- Witness of C1 on a sequence of eight requests of two owners. -/
theorem density_invariant_witness :
    allInRange [] sampleRequests = true ∧ Dense (run [] sampleRequests) 1 :=
  ⟨by decide, density_invariant sampleRequests (by decide) 1⟩

/-- C1 as stated fails: one task is created and then moved to `newPosition = 5`;
the owner has one task, at position 5, and is not dense. -/
theorem density_counterexample :
    run [] [.create 1 1 { title := some "a" }, .reorder 1 1 5]
        = [{ _id := 1, user := 1, position := 5, title := "a" }] ∧
      ¬ Dense (run [] [.create 1 1 { title := some "a" }, .reorder 1 1 5]) 1 := by
  decide

/-- C2.  Reorder later: when the task found at position `p` is moved to a
`newPosition` `q > p`, it ends at `q`, every other task of the owner that was
at a position `r` with `p < r ≤ q` ends at `r - 1`, and every other task of
the owner keeps its position.  (Density and `q ≤ n-1` are not needed.) -/
theorem reorder_later (s : Store) (uid taskId : Nat) (task : Task) (q : Int)
    (hu : UniqueIds s) (hf : findOne s taskId uid = some task) (hpq : task.position < q) :
    positionOf (reorderTasks s uid taskId q).1 taskId = some q ∧
      ∀ t ∈ s, t.user = uid → t._id ≠ taskId →
        positionOf (reorderTasks s uid taskId q).1 t._id
          = some (if task.position < t.position ∧ t.position ≤ q then t.position - 1
              else t.position) := by
  have hid := (findOne_spec hf).1
  constructor
  · have := positionOf_reorder hu q hf (findOne_mem hf)
    rw [hid] at this
    simpa using this
  · intro t ht htu hne
    rw [positionOf_reorder hu q hf ht]
    congr 1
    split_ifs <;> first | rfl | (exfalso; omega)

/-- Witness of C2: six tasks, the task at position 2 is moved to position 5. -/
theorem reorder_later_witness :
    (UniqueIds sample ∧ findOne sample 12 1 = some { _id := 12, user := 1, position := 2 }) ∧
      positionOf (reorderTasks sample 1 12 5).1 12 = some 5 ∧
      ∀ t ∈ sample, t.user = 1 → t._id ≠ 12 →
        positionOf (reorderTasks sample 1 12 5).1 t._id
          = some (if (2 : Int) < t.position ∧ t.position ≤ 5 then t.position - 1
              else t.position) :=
  ⟨by decide, reorder_later sample 1 12 { _id := 12, user := 1, position := 2 } 5
    (by decide) (by decide) (by decide)⟩

/-- C3.  Reorder earlier: when the task found at position `p` is moved to a
`newPosition` `q < p`, it ends at `q`, every other task of the owner that was
at a position `r` with `q ≤ r < p` ends at `r + 1`, and every other task of
the owner keeps its position.  (Density and `0 ≤ q` are not needed.) -/
theorem reorder_earlier (s : Store) (uid taskId : Nat) (task : Task) (q : Int)
    (hu : UniqueIds s) (hf : findOne s taskId uid = some task) (hqp : q < task.position) :
    positionOf (reorderTasks s uid taskId q).1 taskId = some q ∧
      ∀ t ∈ s, t.user = uid → t._id ≠ taskId →
        positionOf (reorderTasks s uid taskId q).1 t._id
          = some (if q ≤ t.position ∧ t.position < task.position then t.position + 1
              else t.position) := by
  have hid := (findOne_spec hf).1
  constructor
  · have := positionOf_reorder hu q hf (findOne_mem hf)
    rw [hid] at this
    simpa using this
  · intro t ht htu hne
    rw [positionOf_reorder hu q hf ht]
    congr 1
    split_ifs <;> first | rfl | (exfalso; omega)

/-- Witness of C3: six tasks, the task at position 4 is moved to position 1. -/
theorem reorder_earlier_witness :
    (UniqueIds sample ∧ findOne sample 14 1 = some { _id := 14, user := 1, position := 4 }) ∧
      positionOf (reorderTasks sample 1 14 1).1 14 = some 1 ∧
      ∀ t ∈ sample, t.user = 1 → t._id ≠ 14 →
        positionOf (reorderTasks sample 1 14 1).1 t._id
          = some (if (1 : Int) ≤ t.position ∧ t.position < 4 then t.position + 1
              else t.position) :=
  ⟨by decide, reorder_earlier sample 1 14 { _id := 14, user := 1, position := 4 } 1
    (by decide) (by decide) (by decide)⟩

/-- C4.  Reorder symmetry: for an owner with dense positions, moving the task
found at position `p` to `q` and then moving the same task back to `p` leaves
the `_id`, owner and position of every document as they were.  (It holds for
every integer `q`, in particular for `q` in `[0, n-1]`.) -/
theorem reorder_round_trip (s : Store) (uid taskId : Nat) (task : Task) (q : Int)
    (hu : UniqueIds s) (hd : Dense s uid) (hf : findOne s taskId uid = some task) :
    ordering (reorderTasks (reorderTasks s uid taskId q).1 uid taskId task.position).1
      = ordering s := by
  obtain ⟨hid, hus⟩ := findOne_spec hf
  have hn := ((dense_iff s uid).mp hd).1
  have hf1 : findOne (reorderTasks s uid taskId q).1 taskId uid
      = some (moved uid taskId task.position q task) := by
    rw [reorderTasks_eq_map q hf, findOne_map _ _ _ _ (moved_id _ _ _ _) (moved_user _ _ _ _), hf]
    rfl
  have hq : (moved uid taskId task.position q task).position = q := by
    rw [moved_position, if_pos hid]
  have h2 := reorderTasks_eq_map task.position hf1
  rw [hq, reorderTasks_eq_map q hf, List.map_map] at h2
  rw [reorderTasks_eq_map q hf, h2]
  unfold ordering
  rw [List.map_map]
  apply List.map_congr_left
  intro t ht
  simp only [Function.comp, moved_id, moved_user, Prod.mk.injEq, true_and]
  rw [moved_position, moved_position, moved_id, moved_user]
  by_cases h1 : t._id = taskId
  · rw [if_pos h1, eq_of_id_eq hu ht (findOne_mem hf) (h1.trans hid.symm)]
  · by_cases h3 : t.user = uid
    · have hne : t.position ≠ task.position :=
        fun h => h1 ((id_eq_iff_position_eq hu hn hf ht h3).mpr h)
      simp only [h1, h3, if_false, true_and]
      split_ifs <;> omega
    · simp [h1, h3]

/-- Witness of C4: the task at position 2 of six goes to 5 and back. -/
theorem reorder_round_trip_witness :
    (UniqueIds sample ∧ Dense sample 1) ∧
      ordering (reorderTasks (reorderTasks sample 1 12 5).1 1 12 2).1 = ordering sample :=
  ⟨by decide, reorder_round_trip sample 1 12 { _id := 12, user := 1, position := 2 } 5
    (by decide) (by decide) (by decide)⟩

/-- C5.  Delete compaction: for an owner with dense positions, `deleteTask` on
the task found at position `k` removes exactly that id, leaves every task of
the owner below `k` where it was, moves every task of the owner above `k`
down by one, and leaves the owner with one task less and dense again. -/
theorem delete_compaction (s : Store) (uid id : Nat) (task : Task)
    (hu : UniqueIds s) (hd : Dense s uid) (hf : findOne s id uid = some task) :
    (deleteTask s uid id).1.map (fun t => t._id) = (s.map (fun t => t._id)).erase id ∧
      (∀ t ∈ s, t.user = uid → t.position < task.position →
        positionOf (deleteTask s uid id).1 t._id = some t.position) ∧
      (∀ t ∈ s, t.user = uid → task.position < t.position →
        positionOf (deleteTask s uid id).1 t._id = some (t.position - 1)) ∧
      countDocuments (deleteTask s uid id).1 uid + 1 = countDocuments s uid ∧
      Dense (deleteTask s uid id).1 uid := by
  obtain ⟨l₁, l₂, hs, _, hdel⟩ := deleteTask_found hf
  have hu1 : UniqueIds (l₁ ++ l₂) := by
    have h2 : UniqueIds (l₁ ++ task :: l₂) := hs ▸ hu
    unfold UniqueIds at h2 ⊢
    rw [List.map_append] at h2 ⊢
    rw [List.map_cons] at h2
    exact h2.sublist (List.Sublist.append_left (List.sublist_cons_self _ _) _)
  have hmem : ∀ t ∈ s, t.position ≠ task.position → t ∈ l₁ ++ l₂ := by
    intro t ht hne
    rw [hs] at ht
    rcases List.mem_append.mp ht with h | h
    · exact List.mem_append_left _ h
    · rcases List.mem_cons.mp h with h | h
      · exact absurd (by rw [h]) hne
      · exact List.mem_append_right _ h
  have hpos : ∀ t ∈ l₁ ++ l₂, positionOf (deleteTask s uid id).1 t._id
      = some (if t.user = uid ∧ task.position < t.position then t.position - 1
          else t.position) := by
    intro t ht
    rw [hdel]
    unfold updateMany
    rw [positionOf_map hu1 _ _ ht]
    · congr 1
      by_cases h1 : t.user = uid <;> by_cases h2 : task.position < t.position <;>
        simp [h1, h2]
      omega
    · intro x
      by_cases h : (x.user == uid && decide (x.position > task.position)) = true <;> simp [h]
  refine ⟨deleteTask_ids hu hf, ?_, ?_, deleteTask_dense hd hf⟩
  · intro t ht htu hlt
    rw [hpos t (hmem t ht (by omega)), if_neg (by omega)]
  · intro t ht htu hlt
    rw [hpos t (hmem t ht (by omega)), if_pos ⟨htu, hlt⟩]

/-- Witness of C5: the task at position 2 of six is deleted. -/
theorem delete_compaction_witness :
    (UniqueIds sample ∧ Dense sample 1) ∧
      (deleteTask sample 1 12).1.map (fun t => t._id)
        = (sample.map (fun t => t._id)).erase 12 ∧
      (∀ t ∈ sample, t.user = 1 → t.position < 2 →
        positionOf (deleteTask sample 1 12).1 t._id = some t.position) ∧
      (∀ t ∈ sample, t.user = 1 → 2 < t.position →
        positionOf (deleteTask sample 1 12).1 t._id = some (t.position - 1)) ∧
      countDocuments (deleteTask sample 1 12).1 1 + 1 = countDocuments sample 1 ∧
      Dense (deleteTask sample 1 12).1 1 :=
  ⟨by decide, delete_compaction sample 1 12 { _id := 12, user := 1, position := 2 }
    (by decide) (by decide) (by decide)⟩

/-- C6, as amended.  `reorderTasks` does not clamp: for every integer
`newPosition` and every found task, the stored position of the moved task
after the request is exactly `newPosition`; so it lies in `[0, n-1]` exactly
when the requested value does. -/
theorem reorder_stores_requested (s : Store) (uid taskId : Nat) (task : Task) (q : Int)
    (hu : UniqueIds s) (hf : findOne s taskId uid = some task) :
    positionOf (reorderTasks s uid taskId q).1 taskId = some q := by
  have h := positionOf_reorder hu q hf (findOne_mem hf)
  rw [(findOne_spec hf).1] at h
  simpa using h

/-- Witness of C6: a request for position 3 of six stores 3. -/
theorem reorder_stores_requested_witness :
    (UniqueIds sample ∧ findOne sample 10 1 = some { _id := 10, user := 1, position := 0 }) ∧
      positionOf (reorderTasks sample 1 10 3).1 10 = some 3 :=
  ⟨by decide, reorder_stores_requested sample 1 10 { _id := 10, user := 1, position := 0 } 3
    (by decide) (by decide)⟩

/-- C6 as stated fails: the owner has six tasks at dense positions; a request
for `newPosition = 9` leaves the moved task at 9, and a request for
`newPosition = -3` leaves it at -3, both outside `[0, 5]`. -/
theorem reorder_clamp_counterexample :
    Dense sample 1 ∧ countDocuments sample 1 = 6 ∧
      positionOf (reorderTasks sample 1 12 9).1 12 = some 9 ∧
      positionOf (reorderTasks sample 1 12 (-3)).1 12 = some (-3) := by
  decide

/-- C7, as amended.  `reorderTasks` has no validation of `newPosition`: for
every integer `newPosition`, negative ones included, a request whose task is
found is answered with status 200 and the re-sorted list of the owner, and
the requested value is stored as the position of the task. -/
theorem reorder_accepts_any_integer (s : Store) (uid taskId : Nat) (task : Task) (q : Int)
    (hu : UniqueIds s) (hf : findOne s taskId uid = some task) :
    (reorderTasks s uid taskId q).2
        = ⟨200, .tasks (findSorted (reorderTasks s uid taskId q).1 uid)⟩ ∧
      positionOf (reorderTasks s uid taskId q).1 taskId = some q := by
  refine ⟨?_, ?_⟩
  · simp only [reorderTasks, hf]
  · have h := positionOf_reorder hu q hf (findOne_mem hf)
    rw [(findOne_spec hf).1] at h
    simpa using h

/-- Witness of C7: `newPosition = -2` is answered with status 200. -/
theorem reorder_accepts_any_integer_witness :
    (UniqueIds sample ∧ findOne sample 13 1 = some { _id := 13, user := 1, position := 3 }) ∧
      (reorderTasks sample 1 13 (-2)).2
        = ⟨200, .tasks (findSorted (reorderTasks sample 1 13 (-2)).1 1)⟩ ∧
      positionOf (reorderTasks sample 1 13 (-2)).1 13 = some (-2) :=
  ⟨by decide, reorder_accepts_any_integer sample 1 13 { _id := 13, user := 1, position := 3 } (-2)
    (by decide) (by decide)⟩

/-- C7 as stated fails: a request with `newPosition = -1` for the task at
position 2 is answered with status 200, not 400, and the positions of the
owner change (the tasks at 0 and 1 go to 1 and 2, the task goes to -1). -/
theorem negative_position_counterexample :
    (reorderTasks sample 1 12 (-1)).2.status = 200 ∧
      ordering (reorderTasks sample 1 12 (-1)).1
        = [(10, 1, 1), (11, 1, 2), (20, 2, 0), (12, 1, -1), (13, 1, 3), (14, 1, 4), (15, 1, 5)] ∧
      ordering (reorderTasks sample 1 12 (-1)).1 ≠ ordering sample := by
  decide

/-- C8.  No-op reorder: `reorderTasks` with `newPosition` equal to the current
position of the found task leaves the `_id`, owner and position of every
document, of that owner and of every other, as they were. -/
theorem reorder_same_position (s : Store) (uid taskId : Nat) (task : Task)
    (hu : UniqueIds s) (hf : findOne s taskId uid = some task) :
    ordering (reorderTasks s uid taskId task.position).1 = ordering s := by
  have hid := (findOne_spec hf).1
  rw [reorderTasks_eq_map task.position hf]
  unfold ordering
  rw [List.map_map]
  apply List.map_congr_left
  intro t ht
  simp only [Function.comp, moved_id, moved_user, Prod.mk.injEq, true_and]
  rw [moved_position]
  by_cases h1 : t._id = taskId
  · rw [if_pos h1, eq_of_id_eq hu ht (findOne_mem hf) (h1.trans hid.symm)]
  · rw [if_neg h1]
    split_ifs <;> omega

/-- Witness of C8: the task at position 3 is moved to position 3. -/
theorem reorder_same_position_witness :
    (UniqueIds sample ∧ findOne sample 13 1 = some { _id := 13, user := 1, position := 3 }) ∧
      ordering (reorderTasks sample 1 13 3).1 = ordering sample :=
  ⟨by decide, reorder_same_position sample 1 13 { _id := 13, user := 1, position := 3 }
    (by decide) (by decide)⟩

/-- C9.  Scope isolation: a `reorderTasks` or `deleteTask` request of owner `a`,
with any task id (also the id of a task of `b`) and any `newPosition`, leaves
the documents of every other owner `b`, and so their set and their
positions, exactly as they were. -/
theorem scope_isolation (s : Store) (a b taskId : Nat) (newPosition : Int)
    (hu : UniqueIds s) (hab : a ≠ b) :
    (reorderTasks s a taskId newPosition).1.filter (fun t => t.user == b)
        = s.filter (fun t => t.user == b) ∧
      (deleteTask s a taskId).1.filter (fun t => t.user == b)
        = s.filter (fun t => t.user == b) :=
  ⟨reorderTasks_other hu a b taskId hab newPosition, deleteTask_other s a b taskId hab⟩

/-- Witness of C9: owner 1 moves and deletes; the task of owner 2 stays. -/
theorem scope_isolation_witness :
    (UniqueIds sample ∧ (1 : Nat) ≠ 2) ∧
      (reorderTasks sample 1 15 0).1.filter (fun t => t.user == 2)
        = sample.filter (fun t => t.user == 2) ∧
      (deleteTask sample 1 15).1.filter (fun t => t.user == 2)
        = sample.filter (fun t => t.user == 2) :=
  ⟨by decide, scope_isolation sample 1 2 15 0 (by decide) (by decide)⟩

/-- C10, as amended.  NotFound is atomic: when no document has the requested id
together with the caller as owner, `reorderTasks` and `deleteTask` return the
collection unchanged; they answer with status 404 when the id casts to an
`ObjectId`, and with status 400 (`reorderTasks`) or 500 (`deleteTask`) when it
does not. -/
theorem not_found_atomic (s : Store) (uid : Nat) (taskId : RawId) (newPosition : Int)
    (h : ∀ t ∈ s, ¬ (RawId.objectId t._id = taskId ∧ t.user = uid)) :
    reorderTasksRaw s uid taskId newPosition
        = (s, match taskId with
            | .objectId _ => ⟨404, .message "Task not found"⟩
            | .malformed => ⟨400, .message "Cast to ObjectId failed"⟩) ∧
      deleteTaskRaw s uid taskId
        = (s, match taskId with
            | .objectId _ => ⟨404, .message "Task not found"⟩
            | .malformed => ⟨500, .message "Cast to ObjectId failed"⟩) := by
  cases taskId with
  | malformed => exact ⟨rfl, rfl⟩
  | objectId id =>
    have hf : findOne s id uid = none := by
      unfold findOne
      rw [List.find?_eq_none]
      intro t ht hc
      simp only [Bool.and_eq_true, beq_iff_eq] at hc
      exact h t ht ⟨by rw [hc.1], hc.2⟩
    constructor
    · simp only [reorderTasksRaw, reorderTasks, hf]
    · simp only [deleteTaskRaw, deleteTask, findOneAndDelete, hf]

/-- Witness of C10: owner 1 names task 20, which belongs to owner 2. -/
theorem not_found_atomic_witness :
    (∀ t ∈ sample, ¬ (RawId.objectId t._id = RawId.objectId 20 ∧ t.user = 1)) ∧
      reorderTasksRaw sample 1 (.objectId 20) 3
        = (sample, ⟨404, .message "Task not found"⟩) ∧
      deleteTaskRaw sample 1 (.objectId 20) = (sample, ⟨404, .message "Task not found"⟩) :=
  ⟨by decide, not_found_atomic sample 1 (.objectId 20) 3 (by decide)⟩

/-- C10 as stated fails: no task has an id that does not cast to an `ObjectId`,
and for such an id `reorderTasks` answers with status 400 and `deleteTask`
with status 500, not with 404; the collection is unchanged. -/
theorem not_found_malformed_counterexample :
    (∀ t ∈ sample, ¬ (RawId.objectId t._id = RawId.malformed ∧ t.user = 1)) ∧
      (reorderTasksRaw sample 1 .malformed 3).2.status = 400 ∧
      (deleteTaskRaw sample 1 .malformed).2.status = 500 ∧
      (reorderTasksRaw sample 1 .malformed 3).1 = sample ∧
      (deleteTaskRaw sample 1 .malformed).1 = sample := by
  decide

/-! ## Reminder cycle lemmas -/

/-- In a collection with unique ids, the documents with the id of a member are
that member alone. -/
theorem filter_id_eq_singleton {s : Store} (hu : UniqueIds s) {t : Task} (ht : t ∈ s) :
    s.filter (fun x => x._id == t._id) = [t] := by
  induction s with
  | nil => cases ht
  | cons a l ih =>
    have hu2 : UniqueIds l := (List.nodup_cons.mp hu).2
    have hnot : a._id ∉ l.map (fun x => x._id) := (List.nodup_cons.mp hu).1
    by_cases h : a._id = t._id
    · have hat : a = t := eq_of_id_eq hu (List.mem_cons_self _ _) ht h
      subst hat
      have hnone : l.filter (fun x => x._id == a._id) = [] := by
        rw [List.filter_eq_nil_iff]
        intro x hx hxe
        exact hnot (List.mem_map.mpr ⟨x, hx, by simpa using hxe⟩)
      simp [List.filter_cons, hnone]
    · have htl : t ∈ l := by
        rcases List.mem_cons.mp ht with h1 | h1
        · exact absurd (by rw [h1]) h
        · exact h1
      simp [List.filter_cons, h, ih hu2 htl]

/-- Lookup by id after a map that keeps ids. -/
theorem find_map_of_mem {s : Store} (hu : UniqueIds s) (g : Task → Task)
    (hg : ∀ t, (g t)._id = t._id) {t : Task} (ht : t ∈ s) :
    (s.map g).find? (fun x => x._id == t._id) = some (g t) := by
  rw [List.find?_map]
  have : ((fun x : Task => x._id == t._id) ∘ g) = (fun x : Task => x._id == t._id) := by
    funext x; simp [hg]
  rw [this, find_id_of_mem hu ht]
  rfl

/-- The flag returned by `sendReminderEmail`. -/
theorem sendReminderEmail_flag (s : Store) (task : Task) (users : List User)
    (mail : Task → Bool) (stamp : Int) :
    (sendReminderEmail s task (populate users task) mail stamp).2
      = delivered users mail task := by
  unfold sendReminderEmail sendReminderEmailTry delivered
  cases populate users task with
  | none => rfl
  | some u => by_cases h : mail task = true <;> simp [h]

/-- The collection left by `sendReminderEmail`. -/
theorem sendReminderEmail_store (s : Store) (task : Task) (users : List User)
    (mail : Task → Bool) (stamp : Int) :
    (sendReminderEmail s task (populate users task) mail stamp).1
      = if delivered users mail task then markSent s task._id stamp else s := by
  unfold sendReminderEmail sendReminderEmailTry delivered
  cases populate users task with
  | none => rfl
  | some u => by_cases h : mail task = true <;> simp [h]

/-- The log of the loop: one entry for each task of the snapshot in the window,
in snapshot order. -/
theorem reminderLoop_log (users : List User) (now : Task → Int) (mail : Task → Bool)
    (l : List Task) : ∀ (s : Store) (log : DeliveryLog),
    (reminderLoop users now mail l s log).2
      = log ++ (l.filter (eligible now)).map (fun t => (t._id, delivered users mail t)) := by
  induction l with
  | nil => intro s log; simp [reminderLoop]
  | cons a l ih =>
    intro s log
    by_cases h : eligible now a = true
    · simp only [reminderLoop, h, if_true, List.filter_cons, List.map_cons]
      rw [ih, sendReminderEmail_flag, List.append_assoc]
      rfl
    · have h2 : eligible now a = false := by simpa using h
      simp only [reminderLoop, h2, Bool.false_eq_true, if_false, List.filter_cons]
      rw [ih]

/-- A document whose id is not among the delivered ones gets no stamp. -/
theorem stampOf_eq_none (users : List User) (now : Task → Int) (mail : Task → Bool)
    (l : List Task) (id : Nat)
    (h : (deliveredIds users now mail l).contains id = false) :
    stampOf users now mail l id = none := by
  induction l with
  | nil => rfl
  | cons a l ih =>
    by_cases hc : (eligible now a && delivered users mail a) = true
    · have hJ : deliveredIds users now mail (a :: l)
          = a._id :: deliveredIds users now mail l := by
        simp only [deliveredIds, List.filter_cons, hc, if_true, List.map_cons]
      rw [hJ, List.contains_cons, Bool.or_eq_false_iff] at h
      have hne : (a._id == id) = false := by
        have h1 := h.1
        rw [Bool.eq_false_iff] at h1 ⊢
        intro hc2
        apply h1
        have : a._id = id := by simpa using hc2
        simp [this]
      simp only [stampOf, ih h.2, hne, Bool.and_false, Bool.false_eq_true, if_false]
    · have hc2 : (eligible now a && delivered users mail a) = false := by simpa using hc
      have hJ : deliveredIds users now mail (a :: l) = deliveredIds users now mail l := by
        simp only [deliveredIds, List.filter_cons, hc2, Bool.false_eq_true, if_false]
      rw [hJ] at h
      simp only [stampOf, ih h, hc2, Bool.false_and, Bool.false_eq_true, if_false]

/-- The collection left by the loop: the documents whose id was delivered are
marked and stamped, every other document is as before. -/
theorem reminderLoop_store (users : List User) (now : Task → Int) (mail : Task → Bool)
    (l : List Task) : ∀ (s : Store) (log : DeliveryLog),
    (reminderLoop users now mail l s log).1
      = s.map (fun x => if (deliveredIds users now mail l).contains x._id
          then { x with
            reminder := { x.reminder with sent := true }
            updatedAt := (stampOf users now mail l x._id).getD x.updatedAt }
          else x) := by
  induction l with
  | nil =>
    intro s log
    simp [reminderLoop, deliveredIds]
  | cons a l ih =>
    intro s log
    by_cases h : eligible now a = true
    · simp only [reminderLoop, h, if_true]
      rw [ih, sendReminderEmail_store]
      by_cases hd : delivered users mail a = true
      · rw [if_pos hd]
        unfold markSent
        rw [List.map_map]
        apply List.map_congr_left
        intro x _
        have hJ : deliveredIds users now mail (a :: l)
            = a._id :: deliveredIds users now mail l := by
          simp [deliveredIds, List.filter_cons, h, hd]
        rw [hJ]
        by_cases hx : x._id = a._id
        · have hxa : (a._id == x._id) = true := by simp [hx]
          simp only [Function.comp, hx, beq_self_eq_true, if_true, List.contains_cons,
            Bool.true_or]
          by_cases hc : (deliveredIds users now mail l).contains a._id = true
          · simp only [hc, if_true, stampOf, h, hd, Bool.and_self, Bool.true_and]
            cases stampOf users now mail l a._id <;> simp
          · have hc2 : (deliveredIds users now mail l).contains a._id = false := by
              simpa using hc
            simp only [hc2, Bool.false_eq_true, if_false, stampOf,
              stampOf_eq_none users now mail l a._id hc2, h, hd, Bool.and_self,
              Bool.true_and, beq_self_eq_true, if_true, Option.getD_some]
        · have hx2 : (x._id == a._id) = false := by simpa using hx
          have hx3 : (a._id == x._id) = false := by
            simpa using (fun h : a._id = x._id => hx h.symm)
          simp only [Function.comp, hx2, Bool.false_eq_true, if_false, List.contains_cons,
            Bool.false_or, stampOf, hx3, Bool.and_false]
          cases stampOf users now mail l x._id <;> rfl
      · have hd2 : delivered users mail a = false := by simpa using hd
        have hJ : deliveredIds users now mail (a :: l) = deliveredIds users now mail l := by
          simp [deliveredIds, List.filter_cons, h, hd2]
        rw [hJ, hd2]
        simp only [Bool.false_eq_true, if_false]
        apply List.map_congr_left
        intro x _
        simp only [stampOf, h, hd2, Bool.and_false, Bool.false_and, Bool.false_eq_true, if_false]
        cases stampOf users now mail l x._id <;> rfl
    · have h2 : eligible now a = false := by simpa using h
      have hJ : deliveredIds users now mail (a :: l) = deliveredIds users now mail l := by
        simp [deliveredIds, List.filter_cons, h2]
      simp only [reminderLoop, h2, Bool.false_eq_true, if_false]
      rw [ih, hJ]
      apply List.map_congr_left
      intro x _
      simp only [stampOf, h2, Bool.false_and, Bool.false_eq_true, if_false]
      cases stampOf users now mail l x._id <;> rfl

theorem poll_log (s : Store) (users : List User) (now : Task → Int) (mail : Task → Bool) :
    (checkAndScheduleReminders s users now mail).2
      = ((dueSnapshot s).filter (eligible now)).map
          (fun t => (t._id, delivered users mail t)) := by
  simp only [checkAndScheduleReminders, checkAndScheduleRemindersTry]
  rw [reminderLoop_log]
  rfl

theorem poll_store (s : Store) (users : List User) (now : Task → Int) (mail : Task → Bool) :
    (checkAndScheduleReminders s users now mail).1
      = s.map (fun x => if (deliveredIds users now mail (dueSnapshot s)).contains x._id
          then { x with
            reminder := { x.reminder with sent := true }
            updatedAt := (stampOf users now mail (dueSnapshot s) x._id).getD x.updatedAt }
          else x) := by
  simp only [checkAndScheduleReminders, checkAndScheduleRemindersTry]
  rw [reminderLoop_store]

theorem poll_ids (s : Store) (users : List User) (now : Task → Int) (mail : Task → Bool) :
    (checkAndScheduleReminders s users now mail).1.map (fun t => t._id)
      = s.map (fun t => t._id) := by
  rw [poll_store, List.map_map]
  apply List.map_congr_left
  intro x _
  simp only [Function.comp]
  split <;> rfl

/-- Membership of the id of a document among the ids of a filtered part of the
collection. -/
theorem contains_filter_ids {s : Store} (hu : UniqueIds s) (p : Task → Bool) {t : Task}
    (ht : t ∈ s) : ((s.filter p).map (fun x => x._id)).contains t._id = p t := by
  by_cases hp : p t = true
  · rw [hp]
    show List.elem t._id _ = true
    rw [List.elem_iff]
    exact List.mem_map.mpr ⟨t, List.mem_filter.mpr ⟨ht, hp⟩, rfl⟩
  · have hp2 : p t = false := by simpa using hp
    rw [hp2, Bool.eq_false_iff]
    intro hc
    have hc : List.elem t._id ((s.filter p).map (fun x => x._id)) = true := hc
    rw [List.elem_iff] at hc
    obtain ⟨x, hx, hxe⟩ := List.mem_map.mp hc
    obtain ⟨hxs, hpx⟩ := List.mem_filter.mp hx
    rw [eq_of_id_eq hu hxs ht hxe] at hpx
    exact hp hpx

/-- A document is marked by a cycle exactly when it is armed, in the window and
delivered. -/
theorem contains_deliveredIds {s : Store} (hu : UniqueIds s) (users : List User)
    (now : Task → Int) (mail : Task → Bool) {t : Task} (ht : t ∈ s) :
    (deliveredIds users now mail (dueSnapshot s)).contains t._id
      = (armed t && (eligible now t && delivered users mail t)) := by
  unfold deliveredIds dueSnapshot
  rw [List.filter_filter]
  have := contains_filter_ids hu
    (fun a => (eligible now a && delivered users mail a) && armed a) ht
  rw [this, Bool.and_comm]

/-- The number of attempts of one cycle for a document: one when it is armed
and in the window, none otherwise. -/
theorem attempts_poll {s : Store} (hu : UniqueIds s) (users : List User)
    (now : Task → Int) (mail : Task → Bool) {t : Task} (ht : t ∈ s) :
    attempts (checkAndScheduleReminders s users now mail).2 t._id
      = if armed t && eligible now t then 1 else 0 := by
  unfold attempts
  rw [poll_log, List.filter_map, List.length_map]
  unfold dueSnapshot
  rw [List.filter_filter, List.filter_filter]
  have hfun : ∀ a : Task, ((((fun e : Nat × Bool => e.1 == t._id) ∘
      fun t => (t._id, delivered users mail t)) a && eligible now a) && armed a)
      = ((armed a && eligible now a) && (a._id == t._id)) := by
    intro a
    simp only [Function.comp]
    cases armed a <;> cases eligible now a <;> cases (a._id == t._id) <;> rfl
  simp only [hfun]
  rw [← List.filter_filter, filter_id_eq_singleton hu ht]
  by_cases h : (armed t && eligible now t) = true
  · simp [List.filter_cons, h]
  · simp [List.filter_cons, h]

/-- The stored flag of a document after one cycle. -/
theorem sentOf_poll {s : Store} (hu : UniqueIds s) (users : List User)
    (now : Task → Int) (mail : Task → Bool) {t : Task} (ht : t ∈ s) :
    sentOf (checkAndScheduleReminders s users now mail).1 t._id
      = some (t.reminder.sent || (armed t && (eligible now t && delivered users mail t))) := by
  unfold sentOf
  rw [poll_store, find_map_of_mem hu _ _ ht]
  · rw [contains_deliveredIds hu users now mail ht]
    by_cases h : (armed t && (eligible now t && delivered users mail t)) = true
    · simp [h]
    · have h2 : (armed t && (eligible now t && delivered users mail t)) = false := by
        simpa using h
      simp [h2]
  · intro x
    split <;> rfl

/-- A document whose flag is set gets no attempt in any later cycle: the
cycles only set flags. -/
theorem runCycles_no_attempt (users : List User) (id : Nat) (cycles : List Cycle) :
    ∀ s : Store, UniqueIds s → sentOf s id = some true →
      ∀ log ∈ (runCycles users s cycles).2, attempts log id = 0 := by
  induction cycles with
  | nil => intro s _ _ log hlog; simp [runCycles] at hlog
  | cons c cs ih =>
    intro s hu hsent log hlog
    obtain ⟨t, ht, hid, hts⟩ : ∃ t ∈ s, t._id = id ∧ t.reminder.sent = true := by
      unfold sentOf at hsent
      cases hfind : s.find? (fun x => x._id == id) with
      | none => rw [hfind] at hsent; cases hsent
      | some x =>
        rw [hfind] at hsent
        refine ⟨x, List.mem_of_find?_eq_some hfind, ?_, ?_⟩
        · simpa using List.find?_some hfind
        · simpa using hsent
    have harm : armed t = false := by simp [armed, hts]
    simp only [runCycles, List.mem_cons] at hlog
    rcases hlog with h | h
    · rw [h, ← hid, attempts_poll hu users c.now c.mail ht, harm]
      rfl
    · have hu2 : UniqueIds (checkAndScheduleReminders s users c.now c.mail).1 := by
        unfold UniqueIds
        rw [poll_ids]
        exact hu
      have hsent2 : sentOf (checkAndScheduleReminders s users c.now c.mail).1 id
          = some true := by
        rw [← hid, sentOf_poll hu users c.now c.mail ht, hts]
        rfl
      exact ih _ hu2 hsent2 log h

/-! ## Claims on create, update and the reminder cycle -/

/-- C11.  Append on create: whatever the body carries (also its own `user` or
`position`), `createTask` either stores nothing or appends exactly one
document, whose owner is the caller and whose position is the number of tasks
the caller had before; the documents already stored are not touched.  A body
that passes validation, with a new id, is stored. -/
theorem create_appends (s : Store) (uid newId : Nat) (body : TaskBody) :
    ((createTask s uid newId body).1 = s ∨
      ∃ task : Task, (createTask s uid newId body).1 = s ++ [task] ∧
        task.user = uid ∧ task.position = countDocuments s uid) ∧
    (∀ b, defaultReminderTime body = some b →
      validTask (newTask newId uid (countDocuments s uid) b) = true →
      (∀ t ∈ s, t._id ≠ newId) →
      (createTask s uid newId body).1 = s ++ [newTask newId uid (countDocuments s uid) b]) := by
  constructor
  · rcases createTask_store s uid newId body with he | ⟨_, task, _, hus, hpos, he⟩
    · exact Or.inl he
    · exact Or.inr ⟨task, he, hus, hpos⟩
  · intro b hb hv hnew
    have hdup : s.any (fun t => t._id == newId) = false := by
      rw [Bool.eq_false_iff]
      intro hc
      obtain ⟨t, ht, hte⟩ := List.any_eq_true.mp hc
      exact hnew t ht (by simpa using hte)
    unfold createTask
    simp only [hb, hv, hdup, scheduleReminder, Bool.not_true, Bool.false_eq_true, if_false]
    split <;> rfl

/-- Witness of C11: a body that names owner 2 and position 7 is stored for the
caller, owner 1, at position 6 after the six tasks of that owner. -/
theorem create_appends_witness :
    (createTask sample 1 30 { title := some "x", user := some 2, position := some 7 }).1
      = sample ++ [{ _id := 30, user := 1, position := 6, title := "x" }] :=
  (create_appends sample 1 30 { title := some "x", user := some 2, position := some 7 }).2
    { title := some "x", user := some 2, position := some 7 }
    (by decide) (by decide) (by decide)

/-- C12, the code at the failing input: an update body with `position: 9` and
`user: 2` for task 12 of owner 1 is answered with status 200 and leaves the
task at position 9 of owner 2. -/
theorem update_overwrites_position_and_owner :
    (updateTask sample 1 12 { position := some 9, user := some 2 }).2.status = 200 ∧
      ordering (updateTask sample 1 12 { position := some 9, user := some 2 }).1
        = [(10, 1, 0), (11, 1, 1), (20, 2, 0), (12, 2, 9), (13, 1, 3), (14, 1, 4), (15, 1, 5)] ∧
      ¬ Dense (updateTask sample 1 12 { position := some 9, user := some 2 }).1 1 ∧
      ¬ Dense (updateTask sample 1 12 { position := some 9, user := some 2 }).1 2 := by
  decide

/-- C13.  Reminder reset on edit: when the body of `updateTask` has a `reminder`
object, whatever its fields, and the update is saved, the stored task has
`reminder.sent = false`, also when it was `true` before or the body says
`sent: true`. -/
theorem update_resets_sent (s : Store) (uid id : Nat) (task : Task) (body : TaskBody)
    (r : ReminderBody) (hu : UniqueIds s) (hf : findOne s id uid = some task)
    (hr : body.reminder = some r) (hv : validTask (applyUpdate task body) = true) :
    sentOf (updateTask s uid id body).1 id = some false := by
  have hid := (findOne_spec hf).1
  have hstore : (updateTask s uid id body).1
      = s.map (fun t => if t._id == task._id then applyUpdate t body else t) := by
    unfold updateTask
    simp only [hf, hv, scheduleReminder, Bool.not_true, Bool.false_eq_true, if_false]
    split <;> rfl
  have hg : ∀ t : Task, (if t._id == task._id then applyUpdate t body else t)._id = t._id := by
    intro t
    split
    · unfold applyUpdate assignBody
      simp only [hr, Option.isSome_some, if_true]
    · rfl
  unfold sentOf
  rw [hstore, ← hid, find_map_of_mem hu _ hg (findOne_mem hf)]
  simp [applyUpdate, hr]

/-- Witness of C13: the sent reminder of task 3 is edited with `sent: true`. -/
theorem update_resets_sent_witness :
    (UniqueIds reminders ∧ sentOf reminders 3 = some true) ∧
      sentOf (updateTask reminders 2 3
        { reminder := some { enabled := some true, time := some 7000, sent := some true } }).1 3
        = some false :=
  ⟨by decide, update_resets_sent reminders 2 3
    { _id := 3, user := 2, position := 0,
      reminder := { enabled := true, time := some 5000, sent := true } }
    { reminder := some { enabled := some true, time := some 7000, sent := some true } }
    { enabled := some true, time := some 7000, sent := some true }
    (by decide) (by decide) (by decide) (by decide)⟩

/-- C14, the code at the failing input: a create body whose reminder is
`{ enabled: true, time, sent: true }` (`sentBody`) is stored with `reminder.sent = true`
(the schema default applies to an absent field only), so the reminder of the
new task is never in the query of the poll cycle. -/
theorem create_keeps_sent_of_body :
    (createTask [] 1 1 sentBody).1
      = [{ _id := 1, user := 1, position := 0, title := "a",
           reminder := { enabled := true, time := some 5000, sent := true } }] ∧
      dueSnapshot (createTask [] 1 1 sentBody).1 = [] := by
  decide

/-- C15.  Poll eligibility: in one run of `checkAndScheduleReminders`, a
delivery attempt is made for a stored task exactly when its reminder is
enabled, not sent, has a time, and `now < time ≤ now + 10000` for the clock
reading `now` of its iteration (with one reading for the whole run: `now` is
that reading); there is never more than one attempt.  So a disabled reminder,
one with `time ≤ now` and one more than 10 s ahead get none. -/
theorem poll_eligibility (s : Store) (users : List User) (now : Task → Int)
    (mail : Task → Bool) (t : Task) (hu : UniqueIds s) (ht : t ∈ s) :
    (0 < attempts (checkAndScheduleReminders s users now mail).2 t._id ↔
      t.reminder.enabled = true ∧ t.reminder.sent = false ∧
        ∃ time, t.reminder.time = some time ∧ now t < time ∧ time ≤ now t + 10000) ∧
      attempts (checkAndScheduleReminders s users now mail).2 t._id ≤ 1 := by
  rw [attempts_poll hu users now mail ht]
  constructor
  · unfold armed eligible inWindow
    cases htime : t.reminder.time with
    | none => simp
    | some time =>
      by_cases h1 : t.reminder.enabled = true <;> by_cases h2 : t.reminder.sent = true <;>
        by_cases h3 : now t < time <;> by_cases h4 : time ≤ now t + 10000 <;>
        simp [h1, h2, h3, h4]
  · split <;> omega

/-- Witness of C15: task 1 of `reminders`, due in 5 s, gets its attempt in the
run at time 0. -/
theorem poll_eligibility_witness :
    UniqueIds reminders ∧
      (0 < attempts (checkAndScheduleReminders reminders sampleUsers (fun _ => 0)
          (fun _ => true)).2 1 ↔
        true = true ∧ false = false ∧
          ∃ time, some (5000 : Int) = some time ∧ 0 < time ∧ time ≤ 0 + 10000) ∧
      attempts (checkAndScheduleReminders reminders sampleUsers (fun _ => 0)
          (fun _ => true)).2 1 ≤ 1 :=
  ⟨by decide, poll_eligibility reminders sampleUsers (fun _ => 0) (fun _ => true)
    { _id := 1, user := 1, position := 0, reminder := { enabled := true, time := some 5000 } }
    (by decide) (by decide)⟩

/-- C16.  The flag is set only on confirmed delivery: after one poll cycle the
stored `reminder.sent` of a task is `true` exactly when it was `true` before,
or the task was armed and in the window of that cycle and its mail was
delivered; a task that was unsent and whose delivery failed stays unsent. -/
theorem sent_only_on_delivery (s : Store) (users : List User) (now : Task → Int)
    (mail : Task → Bool) (t : Task) (hu : UniqueIds s) (ht : t ∈ s) :
    (sentOf (checkAndScheduleReminders s users now mail).1 t._id = some true ↔
      t.reminder.sent = true ∨
        (armed t = true ∧ eligible now t = true ∧ delivered users mail t = true)) ∧
      (t.reminder.sent = false → delivered users mail t = false →
        sentOf (checkAndScheduleReminders s users now mail).1 t._id = some false) := by
  rw [sentOf_poll hu users now mail ht]
  constructor
  · cases t.reminder.sent <;> cases armed t <;> cases eligible now t <;>
      cases delivered users mail t <;> simp
  · intro h1 h2
    rw [h1, h2]
    simp

/-- Witness of C16: task 5 of `reminders` is in the window at time 0 but its
user is missing, so it stays unsent. -/
theorem sent_only_on_delivery_witness :
    UniqueIds reminders ∧
      sentOf (checkAndScheduleReminders reminders sampleUsers (fun _ => 0)
        (fun _ => true)).1 5 = some false :=
  ⟨by decide, (sent_only_on_delivery reminders sampleUsers (fun _ => 0) (fun _ => true)
    { _id := 5, user := 3, position := 0, reminder := { enabled := true, time := some 10000 } }
    (by decide) (by decide)).2 (by decide) (by decide)⟩

/-- C17.  No re-delivery after firing: for a stored task with an enabled,
unsent reminder at `now + 5000`, the poll cycle at `now` makes exactly one
delivery attempt; and when that delivery succeeds, no later poll cycle,
whatever its clock readings and transport outcomes, makes an attempt for
that task. -/
theorem no_redelivery (s : Store) (users : List User) (now : Int) (mail : Task → Bool)
    (t : Task) (hu : UniqueIds s) (ht : t ∈ s) (he : t.reminder.enabled = true)
    (hs : t.reminder.sent = false) (htime : t.reminder.time = some (now + 5000)) :
    attempts (checkAndScheduleReminders s users (fun _ => now) mail).2 t._id = 1 ∧
      (delivered users mail t = true → ∀ cycles : List Cycle,
        ∀ log ∈ (runCycles users
          (checkAndScheduleReminders s users (fun _ => now) mail).1 cycles).2,
          attempts log t._id = 0) := by
  have harm : armed t = true := by simp [armed, he, hs, htime]
  have helig : eligible (fun _ => now) t = true := by
    simp only [eligible, htime, inWindow, Bool.and_eq_true, decide_eq_true_eq]
    omega
  constructor
  · rw [attempts_poll hu users _ mail ht, harm, helig]
    rfl
  · intro hd cycles
    apply runCycles_no_attempt users t._id cycles
    · unfold UniqueIds
      rw [poll_ids]
      exact hu
    · rw [sentOf_poll hu users _ mail ht, harm, helig, hd, hs]
      rfl

/-- Witness of C17: task 1 of `reminders` (due at 5000) is polled at 0 and then
at 3000 and at 4000. -/
theorem no_redelivery_witness :
    UniqueIds reminders ∧
      attempts (checkAndScheduleReminders reminders sampleUsers (fun _ => 0)
        (fun _ => true)).2 1 = 1 ∧
      ∀ log ∈ (runCycles sampleUsers
          (checkAndScheduleReminders reminders sampleUsers (fun _ => 0) (fun _ => true)).1
          [⟨fun _ => 3000, fun _ => true⟩, ⟨fun _ => 4000, fun _ => false⟩]).2,
        attempts log 1 = 0 :=
  have h := no_redelivery reminders sampleUsers 0 (fun _ => true)
    { _id := 1, user := 1, position := 0, reminder := { enabled := true, time := some 5000 } }
    (by decide) (by decide) (by decide) (by decide) (by decide)
  ⟨by decide, h.1, h.2 (by decide) _⟩

/-- C18, as amended.  A failed delivery is not retried: when a task is armed and
in the window of the poll cycle at time `t` and its delivery fails, it keeps
`reminder.sent = false`, and the next poll cycle, at `t + 10000`, makes no
delivery attempt for it, whatever the transport would do. -/
theorem failed_delivery_not_retried (s : Store) (users : List User) (now : Int)
    (mail mail2 : Task → Bool) (users2 : List User) (t : Task)
    (hu : UniqueIds s) (ht : t ∈ s) (harm : armed t = true)
    (helig : eligible (fun _ => now) t = true) (hfail : delivered users mail t = false) :
    sentOf (checkAndScheduleReminders s users (fun _ => now) mail).1 t._id = some false ∧
      attempts (checkAndScheduleReminders
        (checkAndScheduleReminders s users (fun _ => now) mail).1 users2
        (fun _ => now + pollInterval) mail2).2 t._id = 0 := by
  have hsent : t.reminder.sent = false := by
    simp only [armed, Bool.and_eq_true, Bool.not_eq_true'] at harm
    exact harm.1.2
  have hu1 : UniqueIds (checkAndScheduleReminders s users (fun _ => now) mail).1 := by
    unfold UniqueIds
    rw [poll_ids]
    exact hu
  have hmem : t ∈ (checkAndScheduleReminders s users (fun _ => now) mail).1 := by
    rw [poll_store]
    refine List.mem_map.mpr ⟨t, ht, ?_⟩
    rw [contains_deliveredIds hu users _ mail ht, hfail]
    simp
  have hlate : eligible (fun _ => now + pollInterval) t = false := by
    unfold eligible inWindow pollInterval at *
    cases htime : t.reminder.time with
    | none => rfl
    | some time =>
      rw [htime] at helig
      simp only [Bool.and_eq_true, decide_eq_true_eq] at helig
      simp only [Bool.and_eq_false_iff, decide_eq_false_iff_not]
      left
      omega
  constructor
  · rw [sentOf_poll hu users _ mail ht, harm, helig, hfail, hsent]
    rfl
  · rw [attempts_poll hu1 users2 _ mail2 hmem, hlate]
    simp

/-- Witness of C18: task 1 of `reminders` fails at time 0 and is not tried at
time 10000. -/
theorem failed_delivery_not_retried_witness :
    UniqueIds reminders ∧
      sentOf (checkAndScheduleReminders reminders sampleUsers (fun _ => 0)
        (fun _ => false)).1 1 = some false ∧
      attempts (checkAndScheduleReminders
        (checkAndScheduleReminders reminders sampleUsers (fun _ => 0) (fun _ => false)).1
        sampleUsers (fun _ => 0 + pollInterval) (fun _ => true)).2 1 = 0 :=
  ⟨by decide, failed_delivery_not_retried reminders sampleUsers 0 (fun _ => false)
    (fun _ => true) sampleUsers
    { _id := 1, user := 1, position := 0, reminder := { enabled := true, time := some 5000 } }
    (by decide) (by decide) (by decide) (by decide) (by decide)⟩

/-- C18 as stated fails: task 1 of `reminders` (due at 5000) gets its attempt in
the cycle at time 0, the delivery fails and the task stays unsent; the next
cycle, at time 10000, makes no attempt at all, though the transport would
now take the mail. -/
theorem retry_counterexample :
    (checkAndScheduleReminders reminders sampleUsers (fun _ => 0) (fun _ => false)).2
        = [(1, false), (5, false)] ∧
      sentOf (checkAndScheduleReminders reminders sampleUsers (fun _ => 0)
        (fun _ => false)).1 1 = some false ∧
      (checkAndScheduleReminders
        (checkAndScheduleReminders reminders sampleUsers (fun _ => 0) (fun _ => false)).1
        sampleUsers (fun _ => 10000) (fun _ => true)).2 = [] := by
  decide

/-- C19.  Exactly one firing window: for poll cycles at `t0`, `t0 + 10000`,
`t0 + 20000`, ... and a reminder time strictly after `t0`, there is exactly
one cycle whose window test `now < time ≤ now + 10000` the time passes. -/
theorem one_firing_window (t0 time : Int) (h : t0 < time) :
    ∃! k : Nat, inWindow (t0 + pollInterval * k) time = true := by
  refine ⟨((time - t0 - 1) / 10000).toNat, ?_, ?_⟩
  · simp only [inWindow, pollInterval, Bool.and_eq_true, decide_eq_true_eq]
    have hk : (((time - t0 - 1) / 10000).toNat : Int) = (time - t0 - 1) / 10000 :=
      Int.toNat_of_nonneg (by omega)
    rw [hk]
    omega
  · intro k hk
    simp only [inWindow, pollInterval, Bool.and_eq_true, decide_eq_true_eq] at hk
    omega

/-- Witness of C19: polls from time 0 and a reminder at 25000. -/
theorem one_firing_window_witness :
    (0 : Int) < 25000 ∧ ∃! k : Nat, inWindow (0 + pollInterval * k) 25000 = true :=
  ⟨by decide, one_firing_window 0 25000 (by decide)⟩

/-- C20.  Batch isolation: for two assignments of outcomes to the deliveries of
one poll cycle (transport success or error per task, users present or
missing), the cycle attempts the same tasks in the same order; the stored
flag of a task after the cycle is the same whenever its own delivery has the
same outcome, and it is `true` when its own delivery was attempted and
succeeded; and the `try` block of the cycle ends without an exception. -/
theorem batch_isolation (s : Store) (users1 users2 : List User) (now : Task → Int)
    (mail1 mail2 : Task → Bool) (hu : UniqueIds s) :
    (checkAndScheduleReminders s users1 now mail1).2.map (fun e => e.1)
        = (checkAndScheduleReminders s users2 now mail2).2.map (fun e => e.1) ∧
      (∀ t ∈ s, delivered users1 mail1 t = delivered users2 mail2 t →
        sentOf (checkAndScheduleReminders s users1 now mail1).1 t._id
          = sentOf (checkAndScheduleReminders s users2 now mail2).1 t._id) ∧
      (∀ t ∈ s, armed t = true → eligible now t = true → delivered users1 mail1 t = true →
        sentOf (checkAndScheduleReminders s users1 now mail1).1 t._id = some true) ∧
      checkAndScheduleRemindersTry s users1 now mail1
        = .ok (checkAndScheduleReminders s users1 now mail1) := by
  refine ⟨?_, ?_, ?_, rfl⟩
  · rw [poll_log, poll_log, List.map_map, List.map_map]
    rfl
  · intro t ht hd
    rw [sentOf_poll hu users1 now mail1 ht, sentOf_poll hu users2 now mail2 ht, hd]
  · intro t ht ha he hd
    rw [sentOf_poll hu users1 now mail1 ht, ha, he, hd]
    simp

/-- Witness of C20: the cycle at time 0 over `reminders`, once with every mail
delivered and once with the transport down and no users. -/
theorem batch_isolation_witness :
    UniqueIds reminders ∧
      (checkAndScheduleReminders reminders sampleUsers (fun _ => 0) (fun _ => true)).2.map
          (fun e => e.1)
        = (checkAndScheduleReminders reminders [] (fun _ => 0) (fun _ => false)).2.map
          (fun e => e.1) ∧
      sentOf (checkAndScheduleReminders reminders sampleUsers (fun _ => 0)
        (fun x => x._id == 1)).1 1 = some true :=
  have h := batch_isolation reminders sampleUsers [] (fun _ => 0) (fun _ => true)
    (fun _ => false) (by decide)
  have h2 := batch_isolation reminders sampleUsers [] (fun _ => 0) (fun x => x._id == 1)
    (fun _ => false) (by decide)
  ⟨by decide, h.1, h2.2.2.1
    { _id := 1, user := 1, position := 0, reminder := { enabled := true, time := some 5000 } }
    (by decide) (by decide) (by decide) (by decide)⟩

/-! ## Claims on error answers, defaults and the poll frame -/

/-- C21, the code at the failing input: task 1 of `reminders` has an enabled
reminder; an update of its title is saved, then the call of the undefined
`scheduleReminder` throws, and the handler answers with status 400 although
the stored task has the new title. -/
theorem update_error_after_save :
    (updateTask reminders 1 1 { title := some "renamed" }).2
        = ⟨400, .message "scheduleReminder is not a function"⟩ ∧
      (reminders.map (fun t => t.title)) = ["t", "t", "t", "t", "t", "t"] ∧
      ((updateTask reminders 1 1 { title := some "renamed" }).1.map (fun t => t.title))
        = ["renamed", "t", "t", "t", "t", "t"] := by
  decide

/-- C22, the code at the failing input: a valid create body with an enabled
reminder and a due date is stored (one new task, reminder one hour before the
due date), then the call of the undefined `scheduleReminder` throws, and the
handler answers with status 400 instead of 201. -/
theorem create_error_after_save :
    createTask [] 1 1 { title := some "a", dueDate := some 7200000,
                        reminder := some { enabled := some true } }
      = ([{ _id := 1, user := 1, position := 0, title := "a", dueDate := some 7200000,
            reminder := { enabled := true, time := some 3600000 } }],
          ⟨400, .message "scheduleReminder is not a function"⟩) := by
  decide

/-- C25, the code at the failing input: a create body with `dueDate: 7200000`
and the reminder `{ enabled: true, time: 0 }` carries a reminder time, the
epoch; the test `!req.body.reminder?.time` takes the 0 for a missing time, and
the task is stored with the reminder time 3 600 000, one hour before the due
date, not with the time of the body. -/
theorem default_replaces_time_zero :
    (createTask [] 1 1 { title := some "a", dueDate := some 7200000,
                         reminder := some { enabled := some true, time := some 0 } }).1
      = [{ _id := 1, user := 1, position := 0, title := "a", dueDate := some 7200000,
           reminder := { enabled := true, time := some 3600000 } }] := by
  decide

/-- The reminder time that `createTask` stores, for a create body that passes
validation, with a new id: when the reminder is enabled and its time is falsy
(absent, or 0), the stored time is the due date minus 3 600 000 ms; a time
other than 0 is stored as it is.  With `dueDate: null` the due date reads as
time 0 and the stored time is -3 600 000; with no due date at all nothing is
stored. -/
theorem default_reminder_time (s : Store) (uid newId : Nat) (body : TaskBody)
    (r : ReminderBody) (hr : body.reminder = some r)
    (hv : validTask (newTask newId uid (countDocuments s uid) body) = true)
    (hnew : ∀ t ∈ s, t._id ≠ newId) :
    (r.enabled = some true → falsyTime r.time = true → ∀ d, body.dueDate = some d →
      ∃ task : Task, (createTask s uid newId body).1 = s ++ [task] ∧
        task.reminder.time = some (d - 3600000) ∧ task.dueDate = some d) ∧
    (∀ time, r.time = some time → time ≠ 0 →
      ∃ task : Task, (createTask s uid newId body).1 = s ++ [task] ∧
        task.reminder.time = some time) ∧
    (r.enabled = some true → falsyTime r.time = true → body.dueDate = none →
      if body.dueDateNull then
        ∃ task : Task, (createTask s uid newId body).1 = s ++ [task] ∧
          task.reminder.time = some (-3600000)
      else (createTask s uid newId body).1 = s) := by
  have hdup : s.any (fun t => t._id == newId) = false := by
    rw [Bool.eq_false_iff]
    intro hc
    obtain ⟨t, ht, hte⟩ := List.any_eq_true.mp hc
    exact hnew t ht (by simpa using hte)
  have hstore : ∀ b : TaskBody, defaultReminderTime body = some b →
      validTask (newTask newId uid (countDocuments s uid) b) = true →
      (createTask s uid newId body).1 = s ++ [newTask newId uid (countDocuments s uid) b] := by
    intro b hb hvb
    unfold createTask
    simp only [hb, hvb, hdup, scheduleReminder, Bool.not_true, Bool.false_eq_true, if_false]
    split <;> rfl
  refine ⟨?_, ?_, ?_⟩
  · intro he ht d hd
    have hb : defaultReminderTime body
        = some { body with reminder := some { r with time := some (d - 60 * 60 * 1000) } } := by
      simp [defaultReminderTime, hr, he, ht, hd]
    exact ⟨_, hstore _ hb hv, by simp [newTask, reminderOfBody], by simp [newTask, hd]⟩
  · intro time ht hne
    have hfalsy : falsyTime r.time = false := by
      rw [ht]
      simpa [falsyTime] using hne
    have hb : defaultReminderTime body = some body := by
      simp [defaultReminderTime, hr, hfalsy]
    exact ⟨_, hstore _ hb hv, by simp [newTask, reminderOfBody, hr, ht]⟩
  · intro he ht hd
    by_cases hn : body.dueDateNull = true
    · rw [if_pos hn]
      have hb : defaultReminderTime body
          = some { body with reminder := some { r with time := some (0 - 60 * 60 * 1000) } } := by
        simp [defaultReminderTime, hr, he, ht, hd, hn]
      exact ⟨_, hstore _ hb hv, by simp [newTask, reminderOfBody]⟩
    · rw [if_neg hn]
      have hb : defaultReminderTime body = none := by
        simp [defaultReminderTime, hr, he, ht, hd, hn]
      unfold createTask
      simp only [hb]

/-- An instance of the default: due date 7 200 000, enabled reminder without
time. -/
theorem default_reminder_time_witness :
    ∃ task : Task,
      (createTask sample 1 30 { title := some "a", dueDate := some 7200000,
                                reminder := some { enabled := some true } }).1
        = sample ++ [task] ∧
      task.reminder.time = some (7200000 - 3600000) ∧ task.dueDate = some 7200000 :=
  (default_reminder_time sample 1 30
    { title := some "a", dueDate := some 7200000, reminder := some { enabled := some true } }
    { enabled := some true } rfl (by decide) (by decide)).1 rfl rfl 7200000 rfl

/-- C27, the code at the failing input: task 3 of `reminders` has a sent
reminder; for an update body whose reminder says `sent: true` (what the task
dialog sends for such a task), the route handler stores `sent = true` and the
controller stores `sent = false`. -/
theorem routes_disagree_on_sent :
    sentOf (routerPut reminders 2 3
        { reminder := some { enabled := some true, time := some 7000, sent := some true } }).1 3
        = some true ∧
      sentOf (updateTask reminders 2 3
        { reminder := some { enabled := some true, time := some 7000, sent := some true } }).1 3
        = some false := by
  decide

/-- C28, as amended.  Poll cycle frame: one run of `checkAndScheduleReminders`,
whatever the deliveries do, leaves the same documents in the same order with
every field other than `reminder.sent` and the stamp `updatedAt` as it was; so
ids, owners and positions are unchanged, and an owner is dense after the run
exactly when it was before. -/
theorem poll_frame (s : Store) (users : List User) (now : Task → Int) (mail : Task → Bool) :
    (checkAndScheduleReminders s users now mail).1.map
        (fun t => { t with reminder := { t.reminder with sent := false }, updatedAt := 0 })
      = s.map
        (fun t => { t with reminder := { t.reminder with sent := false }, updatedAt := 0 }) ∧
    ordering (checkAndScheduleReminders s users now mail).1 = ordering s ∧
    ∀ uid, Dense (checkAndScheduleReminders s users now mail).1 uid ↔ Dense s uid := by
  refine ⟨?_, ?_, ?_⟩
  · rw [poll_store, List.map_map]
    apply List.map_congr_left
    intro x _
    simp only [Function.comp]
    split <;> rfl
  · unfold ordering
    rw [poll_store, List.map_map]
    apply List.map_congr_left
    intro x _
    simp only [Function.comp]
    split <;> rfl
  · intro uid
    have hg : ∀ t : Task,
        (if (deliveredIds users now mail (dueSnapshot s)).contains t._id
          then { t with
            reminder := { t.reminder with sent := true }
            updatedAt := (stampOf users now mail (dueSnapshot s) t._id).getD t.updatedAt }
          else t).user
          = t.user := by
      intro t
      split <;> rfl
    have hpos : positionsOf (checkAndScheduleReminders s users now mail).1 uid
        = positionsOf s uid := by
      unfold positionsOf
      rw [poll_store, filter_user_map _ _ _ hg, List.map_map]
      apply List.map_congr_left
      intro x _
      simp only [Function.comp]
      split <;> rfl
    unfold Dense
    rw [countDocuments_eq, countDocuments_eq, hpos]

/-- Instance of C28 on `reminders`, polled at time 1000 with every mail
delivered. -/
theorem poll_frame_witness :
    ordering (checkAndScheduleReminders reminders sampleUsers (fun _ => 1000)
      (fun _ => true)).1 = ordering reminders :=
  (poll_frame reminders sampleUsers (fun _ => 1000) (fun _ => true)).2.1

/-- C28 as stated fails: the cycle at time 1000 over `reminders` delivers the
mail of task 1, and the write that marks the task as sent also sets its
`updatedAt`, from 0 to 1000; so a field other than `reminder.sent` has
changed. -/
theorem poll_stamp_counterexample :
    reminders.map (fun t => t.updatedAt) = [0, 0, 0, 0, 0, 0] ∧
      (checkAndScheduleReminders reminders sampleUsers (fun _ => 1000) (fun _ => true)).2
        = [(1, true), (5, false)] ∧
      (checkAndScheduleReminders reminders sampleUsers (fun _ => 1000)
        (fun _ => true)).1.map (fun t => t.updatedAt) = [1000, 0, 0, 0, 0, 0] := by
  decide

/-- C29, the code at the failing input: the board of four tasks shows, under the
status filter `pending`, the tasks 1 and 3; task 1 is dropped at index 1 of
the displayed list, the request carries `newPosition = 1`, the server moves
task 1 behind the hidden task 2, and the displayed list is again tasks 1 and
3 with the dragged task at index 0.  Under the term `ta` the same happens to
task 2. -/
theorem drop_under_filter_misplaces :
    (filteredTasks (findSorted board 1) "" "pending").map (fun t => t._id) = [1, 3] ∧
      ordering (handleDragEnd board 1 "" "pending" 0 1).1
        = [(1, 1, 1), (2, 1, 0), (3, 1, 2), (4, 1, 3)] ∧
      (handleDragEnd board 1 "" "pending" 0 1).2.map (fun t => t._id) = [1, 3] ∧
      (filteredTasks (findSorted board 1) "ta" "all").map (fun t => t._id) = [2, 4] ∧
      (handleDragEnd board 1 "ta" "all" 0 1).2.map (fun t => t._id) = [2, 4] := by
  decide

/-- C23, as amended.  Client-side reminder validation: `handleSubmit` calls
`onSave` exactly when both date fields convert (empty or parseable) and, in
case the reminder is enabled and has a time, that time is not before the
instant `now` of the check and, when a due date is set as well, not after the
due date.  The form data passed on are the converted fields.  With the
reminder disabled the reminder time is not checked. -/
theorem handleSubmit_spec (localTask : LocalTask) (now : Int) (formData : FormData) :
    handleSubmit localTask now = some formData ↔
      (toISO localTask.dueDate = .ok formData.dueDate ∧
        toISO localTask.reminderTime = .ok formData.reminderTime ∧
        formData.reminderEnabled = localTask.reminderEnabled) ∧
      (formData.reminderEnabled = true → ∀ time, formData.reminderTime = some time →
        now ≤ time ∧ ∀ due, formData.dueDate = some due → time ≤ due) := by
  obtain ⟨fdDue, fdEnabled, fdTime⟩ := formData
  obtain ⟨due, enabled, time⟩ := localTask
  cases due <;> cases time <;> cases enabled <;> cases fdDue <;> cases fdTime <;>
    cases fdEnabled <;>
    simp [handleSubmit, handleSubmitTry, toISO]
  all_goals (try split_ifs)
  all_goals (try simp)
  all_goals (try omega)

/-- Witness of C23: an enabled reminder at 6000, checked at 5000, with the due
date 9000, is passed on. -/
theorem handleSubmit_spec_witness :
    handleSubmit { dueDate := .date 9000, reminderEnabled := true, reminderTime := .date 6000 }
        5000
      = some { dueDate := some 9000, reminderEnabled := true, reminderTime := some 6000 } :=
  (handleSubmit_spec
    { dueDate := .date 9000, reminderEnabled := true, reminderTime := .date 6000 } 5000
    { dueDate := some 9000, reminderEnabled := true, reminderTime := some 6000 }).mpr
    ⟨⟨rfl, rfl, rfl⟩, by
      intro _ time ht
      cases ht
      refine ⟨by decide, ?_⟩
      intro due hd
      cases hd
      decide⟩

/-- C23 as stated fails: with the reminder disabled, a reminder time of 1000 is
passed to `onSave` at the instant 5000, also when the due date is 500; and
with the reminder enabled a reminder time equal to the instant of the check
is passed on. -/
theorem handleSubmit_counterexample :
    handleSubmit { reminderEnabled := false, reminderTime := .date 1000 } 5000
        = some { dueDate := none, reminderEnabled := false, reminderTime := some 1000 } ∧
      handleSubmit { dueDate := .date 500, reminderEnabled := false, reminderTime := .date 1000 }
          5000
        = some { dueDate := some 500, reminderEnabled := false, reminderTime := some 1000 } ∧
      handleSubmit { reminderEnabled := true, reminderTime := .date 5000 } 5000
        = some { dueDate := none, reminderEnabled := true, reminderTime := some 5000 } := by
  decide

/-! ## Analytics lemmas -/

/-- Reading an own property after an assignment. -/
theorem getOwn_setOwn (obj : List (String × JsVal)) (k : String) (v : JsVal) (c : String) :
    getOwn (setOwn obj k v) c = if c = k then some v else getOwn obj c := by
  unfold setOwn
  by_cases hany : obj.any (fun e => e.1 == k) = true
  · rw [if_pos hany]
    unfold getOwn
    by_cases hc : c = k
    · subst hc
      rw [if_pos rfl]
      induction obj with
      | nil => simp at hany
      | cons e rest ih =>
        by_cases he : e.1 = c
        · simp [List.find?_cons, he]
        · have hrest : rest.any (fun e => e.1 == c) = true := by
            simpa [he] using hany
          simp only [List.map_cons, List.find?_cons]
          have he2 : (e.1 == c) = false := by simpa using he
          simp only [he2, Bool.false_eq_true, if_false]
          exact ih hrest
    · rw [if_neg hc]
      congr 1
      clear hany
      induction obj with
      | nil => rfl
      | cons e rest ih =>
        by_cases he : e.1 = k
        · have hec : (e.1 == c) = false := by
            simp only [beq_eq_false_iff_ne, ne_eq]
            rw [he]
            exact fun h => hc h.symm
          have hkc : (k == c) = false := by
            simp only [beq_eq_false_iff_ne, ne_eq]
            exact fun h => hc h.symm
          have hek : (e.1 == k) = true := by simpa using he
          simp only [List.map_cons, List.find?_cons, hek, if_true, hkc, hec]
          exact ih
        · have he2 : (e.1 == k) = false := by simpa using he
          simp only [List.map_cons, List.find?_cons, he2, Bool.false_eq_true, if_false]
          cases hec : (e.1 == c)
          · exact ih
          · rfl
  · rw [if_neg hany]
    unfold getOwn
    rw [List.find?_append]
    by_cases hc : c = k
    · subst hc
      have hnone : obj.find? (fun e => e.1 == c) = none := by
        rw [List.find?_eq_none]
        intro x hx hxe
        exact hany (List.any_eq_true.mpr ⟨x, hx, hxe⟩)
      simp [hnone]
    · have hkc : (k == c) = false := by
        simp only [beq_eq_false_iff_ne, ne_eq]
        exact fun h => hc h.symm
      simp [List.find?_cons, hkc, hc]

/-- A bump of another category leaves the property as it is. -/
theorem getOwn_bump_ne (obj : List (String × JsVal)) (c q : String) (h : q ≠ c) :
    getOwn (bumpCategory obj c) q = getOwn obj q := by
  unfold bumpCategory
  split
  · rw [getOwn_setOwn, if_neg h]
  · rw [getOwn_setOwn, if_neg h]
  · split
    · rfl
    · split <;> rw [getOwn_setOwn, if_neg h]

/-- A bump of a category that is not an inherited name counts one up. -/
theorem getOwn_bump_self (obj : List (String × JsVal)) (q : String)
    (hq : inheritedKeys.contains q = false) (n : Nat)
    (h : getOwn obj q = if n = 0 then none else some (.num n)) :
    getOwn (bumpCategory obj q) q = some (.num (n + 1)) := by
  have hproto : (q == "__proto__") = false := by
    rw [Bool.eq_false_iff]
    intro hc
    have hqe : q = "__proto__" := by simpa using hc
    rw [hqe] at hq
    exact absurd hq (by decide)
  unfold bumpCategory
  by_cases hn : n = 0
  · rw [if_pos hn] at h
    simp only [h, hproto, hq, Bool.false_eq_true, if_false]
    rw [getOwn_setOwn, if_pos rfl, hn]
  · rw [if_neg hn] at h
    simp only [h]
    rw [getOwn_setOwn, if_pos rfl]

/-- The loop over the tasks adds, for a category that is neither empty nor an
inherited name, the number of tasks of that category to its count. -/
theorem forEach_count (q : String) (hq1 : q ≠ "") (hq2 : inheritedKeys.contains q = false)
    (tasks : List Task) : ∀ (obj : List (String × JsVal)) (n : Nat),
    getOwn obj q = (if n = 0 then none else some (.num n)) →
    getOwn (tasks.foldl (fun obj t =>
        match t.category with
        | some c => if c != "" then bumpCategory obj c else obj
        | none => obj) obj) q
      = (if n + tasks.countP (fun t => t.category == some q) = 0 then none
          else some (.num (n + tasks.countP (fun t => t.category == some q)))) := by
  induction tasks with
  | nil => intro obj n h; simpa using h
  | cons t rest ih =>
    intro obj n h
    rw [List.foldl_cons, List.countP_cons]
    cases hcat : t.category with
    | none =>
      have := ih obj n h
      simpa using this
    | some c =>
      by_cases hcq : c = q
      · subst hcq
        have hne : (c != "") = true := by simpa using hq1
        have hstep := getOwn_bump_self obj c hq2 n h
        have := ih (bumpCategory obj c) (n + 1) (by rw [hstep]; simp)
        simp only [hne, if_true]
        rw [this]
        simp only [beq_self_eq_true, if_true]
        have e1 : n + 1 + List.countP (fun t => t.category == some c) rest
            = n + (List.countP (fun t => t.category == some c) rest + 1) := by omega
        rw [e1]
      · have hcount : (some c == some q) = false := by simpa using hcq
        simp only [hcount, Bool.false_eq_true, if_false, Nat.add_zero]
        by_cases hempty : c = ""
        · subst hempty
          simpa using ih obj n h
        · have hne : (c != "") = true := by simpa using hempty
          simp only [hne, if_true]
          exact ih _ n (by rw [getOwn_bump_ne obj c q (fun h => hcq h.symm)]; exact h)

/-- For tasks whose status is one of the enum, the three status counts add up
to the number of tasks. -/
theorem status_counts_sum (tasks : List Task)
    (h : ∀ t ∈ tasks, statusEnum.contains t.status = true) :
    (tasks.filter (fun t => t.status == "completed")).length
      + (tasks.filter (fun t => t.status == "pending")).length
      + (tasks.filter (fun t => t.status == "in-progress")).length = tasks.length := by
  induction tasks with
  | nil => rfl
  | cons t rest ih =>
    have hrest := ih (fun x hx => h x (List.mem_cons_of_mem _ hx))
    have ht := h t (List.mem_cons_self _ _)
    have hcases : t.status = "pending" ∨ t.status = "in-progress" ∨ t.status = "completed" := by
      simpa [statusEnum] using ht
    rcases hcases with hs | hs | hs <;>
      · simp only [List.filter_cons, hs, List.length_cons]
        simp only [show ("pending" == "completed") = false by decide,
          show ("pending" == "in-progress") = false by decide,
          show ("in-progress" == "completed") = false by decide,
          show ("in-progress" == "pending") = false by decide,
          show ("completed" == "pending") = false by decide,
          show ("completed" == "in-progress") = false by decide,
          beq_self_eq_true, if_true, Bool.false_eq_true, if_false, List.length_cons]
        omega

/-- For tasks whose priority is one of the enum, the three priority counts add
up to the number of tasks. -/
theorem priority_counts_sum (tasks : List Task)
    (h : ∀ t ∈ tasks, priorityEnum.contains t.priority = true) :
    (tasks.filter (fun t => t.priority == "high")).length
      + (tasks.filter (fun t => t.priority == "medium")).length
      + (tasks.filter (fun t => t.priority == "low")).length = tasks.length := by
  induction tasks with
  | nil => rfl
  | cons t rest ih =>
    have hrest := ih (fun x hx => h x (List.mem_cons_of_mem _ hx))
    have ht := h t (List.mem_cons_self _ _)
    have hcases : t.priority = "low" ∨ t.priority = "medium" ∨ t.priority = "high" := by
      simpa [priorityEnum] using ht
    rcases hcases with hs | hs | hs <;>
      · simp only [List.filter_cons, hs, List.length_cons]
        simp only [show ("low" == "high") = false by decide,
          show ("low" == "medium") = false by decide,
          show ("medium" == "high") = false by decide,
          show ("medium" == "low") = false by decide,
          show ("high" == "medium") = false by decide,
          show ("high" == "low") = false by decide,
          beq_self_eq_true, if_true, Bool.false_eq_true, if_false, List.length_cons]
        omega

/-! ## Claims on analytics and on the two server implementations -/

/-- C24, as amended.  Analytics are exact counts: `GET /tasks/analytics` answers
with `total` the number of tasks of the owner, `completed`, `pending` and
`inProgress` the numbers of tasks with that status, `high`, `medium` and `low`
the numbers with that priority; for every category `c` that is not empty and
not a property name inherited from `Object.prototype`, `byCategory` has an
entry for `c` exactly when a task of the owner has category `c`, and the entry
is their number; and for schema-valid tasks the status counts and the priority
counts each add up to `total`. -/
theorem analytics_counts (s : Store) (uid : Nat) :
    (routerAnalytics s uid).total = countDocuments s uid ∧
    (routerAnalytics s uid).completed
      = (s.filter (fun t => t.user == uid)).countP (fun t => t.status == "completed") ∧
    (routerAnalytics s uid).pending
      = (s.filter (fun t => t.user == uid)).countP (fun t => t.status == "pending") ∧
    (routerAnalytics s uid).inProgress
      = (s.filter (fun t => t.user == uid)).countP (fun t => t.status == "in-progress") ∧
    (routerAnalytics s uid).high
      = (s.filter (fun t => t.user == uid)).countP (fun t => t.priority == "high") ∧
    (routerAnalytics s uid).medium
      = (s.filter (fun t => t.user == uid)).countP (fun t => t.priority == "medium") ∧
    (routerAnalytics s uid).low
      = (s.filter (fun t => t.user == uid)).countP (fun t => t.priority == "low") ∧
    (∀ c : String, c ≠ "" → inheritedKeys.contains c = false →
      getOwn (routerAnalytics s uid).byCategory c
        = if (s.filter (fun t => t.user == uid)).countP (fun t => t.category == some c) = 0
          then none
          else some (.num
            ((s.filter (fun t => t.user == uid)).countP (fun t => t.category == some c)))) ∧
    ((∀ t ∈ s, t.user = uid → validTask t = true) →
      (routerAnalytics s uid).completed + (routerAnalytics s uid).pending
          + (routerAnalytics s uid).inProgress = (routerAnalytics s uid).total ∧
        (routerAnalytics s uid).high + (routerAnalytics s uid).medium
          + (routerAnalytics s uid).low = (routerAnalytics s uid).total) := by
  refine ⟨rfl, ?_, ?_, ?_, ?_, ?_, ?_, ?_, ?_⟩
  · simp only [routerAnalytics, List.countP_eq_length_filter]
  · simp only [routerAnalytics, List.countP_eq_length_filter]
  · simp only [routerAnalytics, List.countP_eq_length_filter]
  · simp only [routerAnalytics, List.countP_eq_length_filter]
  · simp only [routerAnalytics, List.countP_eq_length_filter]
  · simp only [routerAnalytics, List.countP_eq_length_filter]
  · intro c hc1 hc2
    have := forEach_count c hc1 hc2 (s.filter (fun t => t.user == uid)) [] 0 rfl
    simp only [Nat.zero_add] at this
    exact this
  · intro hv
    have hvalid : ∀ t ∈ s.filter (fun t => t.user == uid), validTask t = true := by
      intro t ht
      obtain ⟨hts, htu⟩ := List.mem_filter.mp ht
      exact hv t hts (by simpa using htu)
    constructor
    · apply status_counts_sum
      intro t ht
      have := hvalid t ht
      simp only [validTask, Bool.and_eq_true] at this
      exact this.1.1.2
    · apply priority_counts_sum
      intro t ht
      have := hvalid t ht
      simp only [validTask, Bool.and_eq_true] at this
      exact this.1.2

/-- Witness of C24: owner 1 of `categorised` has two tasks of category `work`,
and its five tasks are schema-valid. -/
theorem analytics_counts_witness :
    getOwn (routerAnalytics categorised 1).byCategory "work" = some (.num 2) ∧
      (routerAnalytics categorised 1).completed + (routerAnalytics categorised 1).pending
          + (routerAnalytics categorised 1).inProgress = (routerAnalytics categorised 1).total :=
  have h := analytics_counts categorised 1
  ⟨h.2.2.2.2.2.2.2.1 "work" (by decide) (by decide),
    (h.2.2.2.2.2.2.2.2 (by decide)).1⟩

/-- C24 as stated fails: owner 1 of `categorised` has two tasks with the empty
category and one with the category `constructor`; `byCategory` has no entry
for the empty category, and its entry for `constructor` is not a number. -/
theorem analytics_counterexample :
    ((categorised.filter (fun t => t.user == 1)).countP (fun t => t.category == some "")) = 2 ∧
      getOwn (routerAnalytics categorised 1).byCategory "" = none ∧
      ((categorised.filter (fun t => t.user == 1)).countP
        (fun t => t.category == some "constructor")) = 1 ∧
      getOwn (routerAnalytics categorised 1).byCategory "constructor" = some .text := by
  decide

/-- The task that `lastTaskOf` returns is in the list and no task of the list
has a later position; a list with a task has a last task. -/
theorem lastTaskOf_spec (l : List Task) :
    (l = [] → lastTaskOf l = none) ∧
      (l ≠ [] → ∃ m, lastTaskOf l = some m ∧ m ∈ l ∧ ∀ x ∈ l, x.position ≤ m.position) := by
  induction l with
  | nil => exact ⟨fun _ => rfl, fun h => absurd rfl h⟩
  | cons t rest ih =>
    refine ⟨fun h => (by cases h), fun _ => ?_⟩
    by_cases hrest : rest = []
    · subst hrest
      refine ⟨t, rfl, List.mem_cons_self _ _, ?_⟩
      intro x hx
      rw [List.mem_singleton] at hx
      rw [hx]
    · obtain ⟨m, hm, hmem, hmax⟩ := ih.2 hrest
      by_cases hgt : m.position > t.position
      · refine ⟨m, by simp [lastTaskOf, hm, hgt], List.mem_cons_of_mem _ hmem, ?_⟩
        intro x hx
        rcases List.mem_cons.mp hx with h | h
        · rw [h]; omega
        · exact hmax x h
      · refine ⟨t, by simp [lastTaskOf, hm, hgt], List.mem_cons_self _ _, ?_⟩
        intro x hx
        rcases List.mem_cons.mp hx with h | h
        · rw [h]
        · have := hmax x h
          omega

/-- For a dense owner, `last position + 1` is the number of tasks. -/
theorem dense_last_position {s : Store} {uid : Nat} (hd : Dense s uid) :
    (match lastTask s uid with
      | some l => l.position + 1
      | none => 0) = (countDocuments s uid : Int) := by
  obtain ⟨hn, hb⟩ := (dense_iff s uid).mp hd
  unfold lastTask
  by_cases hempty : s.filter (fun t => t.user == uid) = []
  · rw [(lastTaskOf_spec _).1 hempty]
    simp [countDocuments, hempty]
  · obtain ⟨m, hm, hmem, hmax⟩ := (lastTaskOf_spec _).2 hempty
    rw [hm]
    have hlen : 0 < countDocuments s uid := by
      unfold countDocuments
      exact List.length_pos.mpr hempty
    have hmp : m.position ∈ positionsOf s uid := List.mem_map.mpr ⟨m, hmem, rfl⟩
    have h1 := hb _ hmp
    have hperm := perm_firstPositions hn (by
      intro x hx
      have := hb x hx
      rw [countDocuments_eq] at this
      exact this)
    have htop : ((countDocuments s uid : Int) - 1) ∈ positionsOf s uid := by
      rw [hperm.mem_iff, mem_firstPositions, ← countDocuments_eq]
      omega
    obtain ⟨x, hx, hxp⟩ := List.mem_map.mp htop
    have := hmax x hx
    show m.position + 1 = _
    omega

/-- The reminder default of `createTask` changes the reminder of the body
only. -/
theorem defaultReminderTime_fields {body b : TaskBody} (h : defaultReminderTime body = some b) :
    b.title = body.title ∧ b.status = body.status ∧ b.priority = body.priority ∧
      b.frequency = body.frequency := by
  unfold defaultReminderTime at h
  split at h
  · cases h; exact ⟨rfl, rfl, rfl, rfl⟩
  · split at h
    · split at h
      · split at h
        · cases h; exact ⟨rfl, rfl, rfl, rfl⟩
        · cases h
      · cases h; exact ⟨rfl, rfl, rfl, rfl⟩
    · cases h; exact ⟨rfl, rfl, rfl, rfl⟩

/-- The handlers for `POST /` and `DELETE /:id` of the two implementations: for
an owner with dense positions, the route handler for `DELETE /:id` leaves the
collection exactly as `deleteTask` does, and the handler for `POST /` leaves
the `_id`, owner and position of every task as `createTask` does
(`last position + 1` is `countDocuments`), for every body that the controller
does not refuse for its reminder default. -/
theorem routes_agree_on_ordering (s : Store) (uid newId taskId : Nat)
    (body : TaskBody) (hd : Dense s uid) (hb : defaultReminderTime body ≠ none) :
    ordering (routerPost s uid newId body).1 = ordering (createTask s uid newId body).1 ∧
      (routerDelete s uid taskId).1 = (deleteTask s uid taskId).1 := by
  refine ⟨?_, rfl⟩
  cases hdef : defaultReminderTime body with
  | none => exact absurd hdef hb
  | some b =>
    obtain ⟨h1, h2, h3, h4⟩ := defaultReminderTime_fields hdef
    have hpos := dense_last_position hd
    have hvalid : ∀ p : Int, validTask ({ newTask newId uid 0 body with position := p })
        = validTask (newTask newId uid (countDocuments s uid) b) := by
      intro p
      simp only [validTask, newTask, h1, h2, h3, h4]
    have hroute : routerPost s uid newId body
        = (if !validTask (newTask newId uid (countDocuments s uid) b) then
            (s, ⟨500, .message "Server error"⟩)
          else if s.any (fun t => t._id == newId) then (s, ⟨500, .message "Server error"⟩)
          else (s ++ [{ newTask newId uid 0 body with position := (countDocuments s uid : Int) }],
            ⟨200, .task { newTask newId uid 0 body with
              position := (countDocuments s uid : Int) }⟩)) := by
      simp only [routerPost, hpos, hvalid]
    rw [hroute]
    unfold createTask
    simp only [hdef]
    by_cases hv : validTask (newTask newId uid (countDocuments s uid) b) = true
    · by_cases hdup : s.any (fun t => t._id == newId) = true
      · simp [hv, hdup]
      · have hdup2 : s.any (fun t => t._id == newId) = false := by simpa using hdup
        simp only [hv, hdup2, scheduleReminder, Bool.not_true, Bool.false_eq_true, if_false]
        split <;> simp [ordering, newTask]
    · have hv2 : validTask (newTask newId uid (countDocuments s uid) b) = false := by
        simpa using hv
      simp [hv2]

/-- An instance: owner 1 of `sample` with a plain create body, and the delete of
task 12. -/
theorem routes_agree_on_ordering_witness :
    (Dense sample 1 ∧ defaultReminderTime { title := some "x" } ≠ none) ∧
      ordering (routerPost sample 1 30 { title := some "x" }).1
        = ordering (createTask sample 1 30 { title := some "x" }).1 ∧
      (routerDelete sample 1 12).1 = (deleteTask sample 1 12).1 :=
  ⟨by decide, routes_agree_on_ordering sample 1 30 12 { title := some "x" }
    (by decide) (by decide)⟩

/-- C26, the code at the failing inputs.  Owner 1 of `sample` is dense.  A
request `PUT /reorder` for task 12 with `newPosition = 5` is answered by the
router with status 500 and moves nothing, while `reorderTasks` moves the task
to position 5.  And for a create body with an enabled reminder, no reminder
time and no due date, on the empty collection, the route handler stores the
task at position 0 while `createTask` answers 400 and stores nothing. -/
theorem served_routes_disagree :
    Dense sample 1 ∧
      servePutReorder sample 1 12 5 = (sample, ⟨500, .message "Server error"⟩) ∧
      ordering (reorderTasks sample 1 12 5).1
        = [(10, 1, 0), (11, 1, 1), (20, 2, 0), (12, 1, 5), (13, 1, 2), (14, 1, 3), (15, 1, 4)] ∧
      ordering (routerPost [] 1 1
        { title := some "a", reminder := some { enabled := some true } }).1 = [(1, 1, 0)] ∧
      createTask [] 1 1 { title := some "a", reminder := some { enabled := some true } }
        = ([], ⟨400, .message "Task validation failed"⟩) := by
  decide

/-! ## The board without a filter -/

/-- With an empty search term and the status filter `all` the board shows the
whole list. -/
theorem filteredTasks_all (tasks : List Task) : filteredTasks tasks "" "all" = tasks := by
  unfold filteredTasks
  rw [List.filter_eq_self.mpr, List.filter_eq_self.mpr]
  · intro t _
    unfold includesLower
    simp
  · intro t _
    rfl

/-- In a collection with unique ids, a member is found by its id and owner. -/
theorem findOne_of_mem {s : Store} (hu : UniqueIds s) {t : Task} (ht : t ∈ s) :
    findOne s t._id t.user = some t := by
  unfold findOne
  induction s with
  | nil => cases ht
  | cons a l ih =>
    have hu2 : UniqueIds l := (List.nodup_cons.mp hu).2
    by_cases h : a._id = t._id
    · have : a = t := eq_of_id_eq hu (List.mem_cons_self _ _) ht h
      subst this
      simp [List.find?_cons]
    · have htl : t ∈ l := by
        rcases List.mem_cons.mp ht with h1 | h1
        · exact absurd (by rw [h1]) h
        · exact h1
      simp [List.find?_cons, h, ih hu2 htl]

/-- The sorted list of a dense owner has, at every index, the task of that
position. -/
theorem findSorted_positions {s : Store} {uid : Nat} (hd : Dense s uid) :
    (findSorted s uid).map (fun t => t.position) = firstPositions (countDocuments s uid) := by
  haveI : IsTotal Task (fun a b => a.position ≤ b.position) := ⟨fun a b => le_total _ _⟩
  haveI : IsTrans Task (fun a b => a.position ≤ b.position) :=
    ⟨fun a b c hab hbc => le_trans hab hbc⟩
  have hsorted : ((findSorted s uid).map (fun t => t.position)).Sorted (fun a b => a ≤ b) := by
    have h := List.sorted_insertionSort (fun a b : Task => a.position ≤ b.position)
      (s.filter (fun t => t.user == uid))
    unfold findSorted
    unfold List.Sorted at h ⊢
    exact List.Pairwise.map _ (fun a b hab => hab) h
  have hperm : ((findSorted s uid).map (fun t => t.position)).Perm (positionsOf s uid) := by
    unfold findSorted positionsOf
    exact (List.perm_insertionSort _ _).map _
  unfold Dense at hd
  rw [← hd]
  exact List.eq_of_perm_of_sorted (hperm.trans (List.perm_insertionSort _ _).symm) hsorted
    (List.sorted_insertionSort _ _)

/-- Without a filter the drop lands where dropped: for a
dense owner, a displayed task dropped at an index below the number of tasks is
at that index of the list displayed after the request. -/
theorem drop_without_filter_lands (s : Store) (uid source destination : Nat) (dragged : Task)
    (hu : UniqueIds s) (hd : Dense s uid)
    (hsrc : (findSorted s uid).get? source = some dragged)
    (hdest : destination < countDocuments s uid) :
    ((handleDragEnd s uid "" "all" source destination).2.get? destination).map
        (fun t => t._id) = some dragged._id := by
  have hmemL : dragged ∈ findSorted s uid := List.get?_mem hsrc
  have hmemF : dragged ∈ s.filter (fun t => t.user == uid) := by
    unfold findSorted at hmemL
    exact (List.perm_insertionSort _ _).mem_iff.mp hmemL
  obtain ⟨hmem, huser⟩ := List.mem_filter.mp hmemF
  have huser2 : dragged.user = uid := by simpa using huser
  have hf : findOne s dragged._id uid = some dragged := by
    rw [← huser2]
    exact findOne_of_mem hu hmem
  have hd2 : Dense (reorderTasks s uid dragged._id (destination : Int)).1 uid :=
    reorderTasks_dense hu hd _ hf (by omega) (by exact_mod_cast hdest)
  have hu2 : UniqueIds (reorderTasks s uid dragged._id (destination : Int)).1 := by
    unfold UniqueIds
    rw [reorderTasks_ids]
    exact hu
  have hcount : countDocuments (reorderTasks s uid dragged._id (destination : Int)).1 uid
      = countDocuments s uid := by
    rw [countDocuments_eq, countDocuments_eq,
      positionsOf_reorder hu ((dense_iff s uid).mp hd).1 _ hf, List.length_map]
  have hshown : (handleDragEnd s uid "" "all" source destination).2
      = findSorted (reorderTasks s uid dragged._id (destination : Int)).1 uid := by
    unfold handleDragEnd
    simp only [filteredTasks_all, hsrc]
    simp only [reorderTasks, hf]
  rw [hshown]
  have hpos := findSorted_positions hd2
  rw [hcount] at hpos
  have hlen : (findSorted (reorderTasks s uid dragged._id (destination : Int)).1 uid).length
      = countDocuments s uid := by
    have := congrArg List.length hpos
    simpa [firstPositions] using this
  obtain ⟨x, hx⟩ : ∃ x, (findSorted (reorderTasks s uid dragged._id
      (destination : Int)).1 uid).get? destination = some x := by
    have hlt : destination
        < (findSorted (reorderTasks s uid dragged._id (destination : Int)).1 uid).length := by
      rw [hlen]; exact hdest
    exact ⟨_, List.get?_eq_get hlt⟩
  have hxpos : x.position = (destination : Int) := by
    have h1 : ((findSorted (reorderTasks s uid dragged._id (destination : Int)).1 uid).map
        (fun t => t.position)).get? destination = some x.position := by
      rw [List.get?_eq_getElem?, List.getElem?_map, ← List.get?_eq_getElem?, hx]
      rfl
    rw [hpos] at h1
    unfold firstPositions at h1
    rw [List.get?_eq_getElem?, List.getElem?_map, List.getElem?_range hdest] at h1
    simpa using h1.symm
  have hxF : x ∈ (reorderTasks s uid dragged._id (destination : Int)).1.filter
      (fun t => t.user == uid) := by
    have hxL := List.get?_mem hx
    unfold findSorted at hxL
    exact (List.perm_insertionSort _ _).mem_iff.mp hxL
  have hmovedS : moved uid dragged._id dragged.position (destination : Int) dragged
      ∈ (reorderTasks s uid dragged._id (destination : Int)).1 := by
    rw [reorderTasks_eq_map _ hf]
    exact List.mem_map.mpr ⟨dragged, hmem, rfl⟩
  have hmovedF : moved uid dragged._id dragged.position (destination : Int) dragged
      ∈ (reorderTasks s uid dragged._id (destination : Int)).1.filter
        (fun t => t.user == uid) :=
    List.mem_filter.mpr ⟨hmovedS, by simp [moved_user, huser2]⟩
  have hmovedpos : (moved uid dragged._id dragged.position (destination : Int) dragged).position
      = (destination : Int) := by
    rw [moved_position, if_pos rfl]
  have hn2 := ((dense_iff _ uid).mp hd2).1
  have hxeq : x = moved uid dragged._id dragged.position (destination : Int) dragged :=
    List.inj_on_of_nodup_map hn2 hxF hmovedF (hxpos.trans hmovedpos.symm)
  rw [hx, hxeq]
  simp [moved_id]

end TodoApp
